import Mathlib

/-! mcp-knowledge-graph: relationship taxonomy and graph store

A shallow embedding of `src/types/relationship-schema.ts` (the TELOS taxonomy
tables, the relationship validator and the category classifier) and of the
`KnowledgeGraphManager` operations of `index.ts` (the store operations, the path
finder, and loading and saving the memory file), followed by theorems about them.

Conventions of the embedding:

* The two string enums become inductive types together with their string values
  (`RelationshipType.value`, `TelosCategory.value`).
* An optional field (`telosCategory?`, `suggestedType?`, ...) is an `Option`.
* Every manager operation starts with `loadGraph` and ends with `saveGraph`; the
  persisted file is represented by the `KnowledgeGraph` it holds, so an operation is
  a function from the graph before the call to the graph after it and the value
  returned. An operation that throws does not reach `saveGraph`.
* Arrays are lists, in array order.
-/

namespace McpKnowledgeGraph

/-! ## `relationship-schema.ts` -/

/-- The enum `RelationshipType`, in declaration order. -/
inductive RelationshipType where
  | SUPPORTS
  | ENABLES
  | CONSTRAINS
  | MENTORS
  | INFORMS
  | REFLECTS_ON
  | THREATENS
  deriving DecidableEq, Repr

/-- The enum `TelosCategory`, in declaration order. -/
inductive TelosCategory where
  | IDENTITY
  | MEMORY
  | RESOURCES
  | CONTEXT
  | CONVENTIONS
  | OBJECTIVES
  | PROJECTS
  | HABITS
  | RISKS
  | DECISION_JOURNAL
  | RELATIONSHIPS
  | RETROS
  deriving DecidableEq, Repr

/-- The string value of a `RelationshipType` member. -/
def RelationshipType.value : RelationshipType → String
  | .SUPPORTS => "supports"
  | .ENABLES => "enables"
  | .CONSTRAINS => "constrains"
  | .MENTORS => "mentors"
  | .INFORMS => "informs"
  | .REFLECTS_ON => "reflects_on"
  | .THREATENS => "threatens"

/-- The string value of a `TelosCategory` member. -/
def TelosCategory.value : TelosCategory → String
  | .IDENTITY => "Identity"
  | .MEMORY => "Memory"
  | .RESOURCES => "Resources"
  | .CONTEXT => "Context"
  | .CONVENTIONS => "Conventions"
  | .OBJECTIVES => "Objectives"
  | .PROJECTS => "Projects"
  | .HABITS => "Habits"
  | .RISKS => "Risks"
  | .DECISION_JOURNAL => "DecisionJournal"
  | .RELATIONSHIPS => "Relationships"
  | .RETROS => "Retros"

/-- The members of `RelationshipType`: `Object.values(RelationshipType)`. -/
def RelationshipType.values : List RelationshipType :=
  [.SUPPORTS, .ENABLES, .CONSTRAINS, .MENTORS, .INFORMS, .REFLECTS_ON, .THREATENS]

/-- The members of `TelosCategory`: `Object.values(TelosCategory)`. -/
def TelosCategory.values : List TelosCategory :=
  [.IDENTITY, .MEMORY, .RESOURCES, .CONTEXT, .CONVENTIONS, .OBJECTIVES, .PROJECTS,
   .HABITS, .RISKS, .DECISION_JOURNAL, .RELATIONSHIPS, .RETROS]

/-- The interface `ValidationResult`. -/
structure ValidationResult where
  isValid : Bool
  allowedTypes : List RelationshipType
  suggestedType : Option RelationshipType
  errorMessage : Option String
  deriving DecidableEq, Repr

/-- The constant `RELATIONSHIP_MATRIX`: the relationship types allowed for each
source category, in table order. -/
def RELATIONSHIP_MATRIX : TelosCategory → List RelationshipType
  | .IDENTITY => [.SUPPORTS, .ENABLES, .CONSTRAINS, .MENTORS, .INFORMS, .REFLECTS_ON]
  | .MEMORY => [.SUPPORTS, .ENABLES, .CONSTRAINS, .INFORMS]
  | .RESOURCES => [.SUPPORTS, .ENABLES, .CONSTRAINS, .INFORMS]
  | .CONTEXT => [.SUPPORTS, .ENABLES, .CONSTRAINS, .INFORMS]
  | .CONVENTIONS => [.SUPPORTS, .ENABLES, .CONSTRAINS, .INFORMS]
  | .OBJECTIVES => [.SUPPORTS, .ENABLES, .CONSTRAINS, .MENTORS, .INFORMS, .REFLECTS_ON]
  | .PROJECTS => [.SUPPORTS, .ENABLES, .CONSTRAINS, .MENTORS, .INFORMS, .REFLECTS_ON]
  | .HABITS => [.SUPPORTS, .ENABLES, .CONSTRAINS, .MENTORS, .INFORMS, .REFLECTS_ON]
  | .RISKS => [.MENTORS, .INFORMS, .REFLECTS_ON, .THREATENS]
  | .DECISION_JOURNAL =>
      [.SUPPORTS, .ENABLES, .CONSTRAINS, .MENTORS, .INFORMS, .REFLECTS_ON]
  | .RELATIONSHIPS => [.SUPPORTS, .ENABLES, .CONSTRAINS, .MENTORS, .INFORMS, .REFLECTS_ON]
  | .RETROS => [.SUPPORTS, .ENABLES, .CONSTRAINS, .MENTORS, .INFORMS, .REFLECTS_ON]

/-- The constant `CATEGORY_KEYWORDS`, as the list of its entries in insertion order
(the order `Object.entries` enumerates them). -/
def CATEGORY_KEYWORDS : List (TelosCategory × List String) :=
  [(.IDENTITY, ["values", "mission", "principles", "identity", "purpose", "vision"]),
   (.MEMORY, ["learned", "experience", "remember", "past", "history", "lesson"]),
   (.RESOURCES, ["tool", "budget", "asset", "infrastructure", "capability", "equipment"]),
   (.CONTEXT, ["environment", "situation", "current", "market", "team", "setting"]),
   (.CONVENTIONS, ["standard", "rule", "process", "methodology", "practice", "protocol"]),
   (.OBJECTIVES, ["goal", "target", "achieve", "outcome", "result", "objective"]),
   (.PROJECTS, ["initiative", "effort", "implementation", "build", "create", "project"]),
   (.HABITS, ["routine", "practice", "daily", "regular", "consistency", "habit"]),
   (.RISKS, ["threat", "danger", "vulnerability", "concern", "issue", "risk"]),
   (.DECISION_JOURNAL,
      ["decided", "choice", "option", "alternative", "decision", "choose"]),
   (.RELATIONSHIPS,
      ["person", "team", "stakeholder", "connection", "network", "relationship"]),
   (.RETROS, ["retrospective", "review", "reflection", "lesson", "feedback", "retro"])]

/-- The constant `DEFAULT_RELATIONSHIPS`: the entry stored under the key
`fromCategory-toCategory`, if there is one. No category value contains a hyphen, so
a key determines its pair of categories. -/
def DEFAULT_RELATIONSHIPS : TelosCategory → TelosCategory → Option RelationshipType
  | .HABITS, .PROJECTS => some .SUPPORTS
  | .HABITS, .OBJECTIVES => some .SUPPORTS
  | .PROJECTS, .OBJECTIVES => some .SUPPORTS
  | .RESOURCES, .PROJECTS => some .ENABLES
  | .RESOURCES, .HABITS => some .ENABLES
  | .CONTEXT, .PROJECTS => some .CONSTRAINS
  | .CONTEXT, .OBJECTIVES => some .CONSTRAINS
  | .MEMORY, .DECISION_JOURNAL => some .INFORMS
  | .RETROS, .PROJECTS => some .REFLECTS_ON
  | .RETROS, .HABITS => some .REFLECTS_ON
  | .RISKS, .PROJECTS => some .THREATENS
  | .RISKS, .OBJECTIVES => some .THREATENS
  | .CONVENTIONS, .HABITS => some .CONSTRAINS
  | .CONVENTIONS, .PROJECTS => some .CONSTRAINS
  | _, _ => none

/-- The function `getDefaultRelationship`: the table entry, or `supports` when the
pair has none (every table entry is a non-empty string, so `||` falls back exactly
when the key is absent). -/
def getDefaultRelationship (fromCategory toCategory : TelosCategory) : RelationshipType :=
  match DEFAULT_RELATIONSHIPS fromCategory toCategory with
  | some t => t
  | none => .SUPPORTS

/-- The expression `allowedTypes.join(', ')` on relationship types. -/
def joinTypes (allowedTypes : List RelationshipType) : String :=
  ", ".intercalate (allowedTypes.map RelationshipType.value)

/-- The function `validateRelationship`. -/
def validateRelationship (fromCategory toCategory : TelosCategory)
    (relationshipType : RelationshipType) : ValidationResult :=
  let allowedTypes := RELATIONSHIP_MATRIX fromCategory
  if ¬ allowedTypes.contains relationshipType then
    { isValid := false
      allowedTypes := allowedTypes
      suggestedType := some (getDefaultRelationship fromCategory toCategory)
      errorMessage := some ("Relationship type '" ++ relationshipType.value ++
        "' is not valid for category '" ++ fromCategory.value ++
        "'. Allowed types: " ++ joinTypes allowedTypes) }
  else if relationshipType = .MENTORS ∧ fromCategory ≠ .RELATIONSHIPS then
    { isValid := false
      allowedTypes := allowedTypes
      suggestedType := none
      errorMessage := some ("Relationship type 'mentors' should only be used by people " ++
        "(Relationships category), not '" ++ fromCategory.value ++ "'") }
  else if relationshipType = .THREATENS ∧ fromCategory ≠ .RISKS then
    { isValid := false
      allowedTypes := allowedTypes
      suggestedType := none
      errorMessage := some ("Relationship type 'threatens' should only be used by risks, " ++
        "not '" ++ fromCategory.value ++ "'") }
  else
    { isValid := true
      allowedTypes := allowedTypes
      suggestedType := some relationshipType
      errorMessage := none }

/-- The function `getSuggestedRelationships`: the default type first, then the
allowed types other than the default. -/
def getSuggestedRelationships (fromCategory toCategory : TelosCategory) :
    List RelationshipType :=
  let allowedTypes := RELATIONSHIP_MATRIX fromCategory
  let defaultType := getDefaultRelationship fromCategory toCategory
  defaultType :: allowedTypes.filter (fun type => type ≠ defaultType)

/-! The method `String.prototype.toLowerCase` belongs to the JavaScript runtime: it
applies the Unicode case mapping to the whole string, not character by character.
The functions that call it take it as the parameter `toLowerCase`. -/

/-- A stand-in for `String.prototype.toLowerCase`, equal to it on ASCII text: the
letters `A`-`Z` become `a`-`z` and every other character is kept. It instantiates
the parameter `toLowerCase` at concrete ASCII inputs. -/
def sampleToLowerCase (s : String) : String :=
  ⟨s.data.map Char.toLower⟩

/-- The method `String.prototype.includes`: `searchString` occurs in `s` as a
contiguous run of characters. -/
def includes (s searchString : String) : Bool :=
  s.data.tails.any (fun rest => searchString.data.isPrefixOf rest)

/-- The inner `keywords.reduce` of `detectTelosCategory`: the number of keywords
that occur in the search text. -/
def keywordScore (toLowerCase : String → String) (searchText : String)
    (keywords : List String) : Nat :=
  keywords.foldl
    (fun count keyword => count + (if includes searchText (toLowerCase keyword) then 1 else 0))
    0

/-- The function `detectTelosCategory`: the loop over `Object.entries(CATEGORY_KEYWORDS)`
keeps the first category with a strictly higher score, starting from `Context` with
score 0. -/
def detectTelosCategory (toLowerCase : String → String) (entityName : String)
    (observations : List String) : TelosCategory :=
  let searchText := toLowerCase (entityName ++ " " ++ " ".intercalate observations)
  let bestMatch := CATEGORY_KEYWORDS.foldl
    (fun (bestMatch : TelosCategory × Nat) entry =>
      let score := keywordScore toLowerCase searchText entry.2
      if score > bestMatch.2 then (entry.1, score) else bestMatch)
    (TelosCategory.CONTEXT, 0)
  bestMatch.1

/-- The type guard `isValidRelationshipType`:
`Object.values(RelationshipType).includes(value)`. -/
def isValidRelationshipType (value : String) : Bool :=
  (RelationshipType.values.map RelationshipType.value).contains value

/-- The cast `value as RelationshipType` behind the guard `isValidRelationshipType`:
the member whose string value is `value`, if there is one. -/
def RelationshipType.ofValue? (value : String) : Option RelationshipType :=
  RelationshipType.values.find? (fun t => t.value == value)

/-! ## `index.ts`: the graph store -/

/-- The interface `Entity`. -/
structure Entity where
  name : String
  entityType : String
  telosCategory : Option TelosCategory
  observations : List String
  deriving DecidableEq, Repr

/-- The interface `Relation`; the fields `from` and `to` are written `from_` and `to_`. -/
structure Relation where
  from_ : String
  to_ : String
  relationType : String
  fromCategory : Option TelosCategory
  toCategory : Option TelosCategory
  deriving DecidableEq, Repr

/-- The interface `KnowledgeGraph`. -/
structure KnowledgeGraph where
  entities : List Entity
  relations : List Relation
  deriving DecidableEq, Repr

/-- The comparison used by `createRelations` and `deleteRelations`: two relations
agree on `from`, `to` and `relationType`. -/
def sameTriple (a b : Relation) : Bool :=
  a.from_ == b.from_ && a.to_ == b.to_ && a.relationType == b.relationType

/-- The method `createEntities`: the graph that is saved and the entities returned. -/
def createEntities (toLowerCase : String → String) (graph : KnowledgeGraph)
    (entities : List Entity) : KnowledgeGraph × List Entity :=
  let newEntities := entities.filter
    (fun e => !graph.entities.any (fun existingEntity => existingEntity.name == e.name))
  let entitiesWithCategories := newEntities.map (fun entity =>
    let telosCategory :=
      match entity.telosCategory with
      | some category => category
      | none => detectTelosCategory toLowerCase entity.name entity.observations
    { entity with telosCategory := some telosCategory })
  ({ graph with entities := graph.entities ++ entitiesWithCategories }, entitiesWithCategories)

/-- One iteration of the loop of `createRelations`: what it pushes to
`validatedRelations` and to `validationErrors`. The loop reads `graph`, which is
only changed after the loop. -/
def createRelationsStep (graph : KnowledgeGraph) (relation : Relation) :
    List Relation × List String :=
  let exists_ := graph.relations.any (fun existingRelation => sameTriple existingRelation relation)
  if exists_ then ([], [])
  else
    match graph.entities.find? (fun e => e.name == relation.from_),
          graph.entities.find? (fun e => e.name == relation.to_) with
    | some fromEntity, some toEntity =>
      let fromCategory := fromEntity.telosCategory.getD TelosCategory.CONTEXT
      let toCategory := toEntity.telosCategory.getD TelosCategory.CONTEXT
      match RelationshipType.ofValue? relation.relationType with
      | some relationshipType =>
        let validation := validateRelationship fromCategory toCategory relationshipType
        if ¬ validation.isValid then
          let suggestedType := getDefaultRelationship fromCategory toCategory
          ([{ relation with
                relationType := suggestedType.value
                fromCategory := some fromCategory
                toCategory := some toCategory }],
           [validation.errorMessage.getD "undefined" ++ ". Suggested: '" ++
              suggestedType.value ++ "'"])
        else
          ([{ relation with fromCategory := some fromCategory, toCategory := some toCategory }],
           [])
      | none =>
        let suggestedType := getDefaultRelationship fromCategory toCategory
        ([{ relation with
              relationType := suggestedType.value
              fromCategory := some fromCategory
              toCategory := some toCategory }],
         ["Unknown relationship type '" ++ relation.relationType ++
            "'. Using suggested: '" ++ suggestedType.value ++ "'"])
    | _, _ =>
      ([], ["Entities not found for relation: " ++ relation.from_ ++ " -> " ++ relation.to_])

/-- The outcome of `createRelations`. -/
structure CreateRelationsResult where
  graph : KnowledgeGraph
  validatedRelations : List Relation
  validationErrors : List String
  deriving DecidableEq, Repr

/-- The method `createRelations`: the graph that is saved, the relations returned
and the warnings logged. -/
def createRelations (graph : KnowledgeGraph) (relations : List Relation) :
    CreateRelationsResult :=
  let acc := relations.foldl
    (fun (acc : List Relation × List String) relation =>
      let pushed := createRelationsStep graph relation
      (acc.1 ++ pushed.1, acc.2 ++ pushed.2))
    ([], [])
  { graph := { graph with relations := graph.relations ++ acc.1 }
    validatedRelations := acc.1
    validationErrors := acc.2 }

/-- An item of the argument of `addObservations`. -/
structure ObservationInput where
  entityName : String
  contents : List String
  deriving DecidableEq, Repr

/-- An item of the result of `addObservations`. -/
structure ObservationResult where
  entityName : String
  addedObservations : List String
  deriving DecidableEq, Repr

/-- An item of the argument of `deleteObservations`. -/
structure ObservationDeletion where
  entityName : String
  observations : List String
  deriving DecidableEq, Repr

/-- In-place update of the object that `entities.find(e => e.name === name)` returns:
the first entity with that name is replaced by its image under `f`. -/
def modifyFound (name : String) (f : Entity → Entity) : List Entity → List Entity
  | [] => []
  | e :: rest => if e.name == name then f e :: rest else e :: modifyFound name f rest

/-- The callback of `observations.map` in `addObservations`, applied from left to
right to the loaded graph: it throws at the first item whose entity is not found,
and otherwise appends the new observations to the entity found. -/
def addObservationsLoop (graph : KnowledgeGraph) :
    List ObservationInput → Except String (KnowledgeGraph × List ObservationResult)
  | [] => .ok (graph, [])
  | o :: rest =>
    match graph.entities.find? (fun e => e.name == o.entityName) with
    | none => .error ("Entity with name " ++ o.entityName ++ " not found")
    | some entity =>
      let newObservations :=
        o.contents.filter (fun content => !entity.observations.contains content)
      let graph1 := { graph with
        entities := modifyFound o.entityName
          (fun e => { e with observations := e.observations ++ newObservations })
          graph.entities }
      match addObservationsLoop graph1 rest with
      | .error message => .error message
      | .ok (graph2, results) =>
        .ok (graph2,
          { entityName := o.entityName, addedObservations := newObservations } :: results)

/-- The method `addObservations`: either the error thrown, or the graph that is
saved and the results returned. -/
def addObservations (graph : KnowledgeGraph) (observations : List ObservationInput) :
    Except String (KnowledgeGraph × List ObservationResult) :=
  addObservationsLoop graph observations

/-- The persisted graph after a call of `addObservations` on `graph`: the call saves
only when nothing was thrown. -/
def addObservationsSaved (graph : KnowledgeGraph) (observations : List ObservationInput) :
    KnowledgeGraph :=
  match addObservations graph observations with
  | .ok (saved, _) => saved
  | .error _ => graph

/-- The method `deleteEntities`: the graph that is saved. -/
def deleteEntities (graph : KnowledgeGraph) (entityNames : List String) : KnowledgeGraph :=
  { entities := graph.entities.filter (fun e => !entityNames.contains e.name)
    relations := graph.relations.filter
      (fun r => !entityNames.contains r.from_ && !entityNames.contains r.to_) }

/-- The method `deleteObservations`: the graph that is saved. -/
def deleteObservations (graph : KnowledgeGraph) (deletions : List ObservationDeletion) :
    KnowledgeGraph :=
  deletions.foldl
    (fun g d =>
      match g.entities.find? (fun e => e.name == d.entityName) with
      | some _ =>
        { g with
          entities := modifyFound d.entityName
            (fun e => { e with
              observations := e.observations.filter (fun o => !d.observations.contains o) })
            g.entities }
      | none => g)
    graph

/-- The method `deleteRelations`: the graph that is saved. -/
def deleteRelations (graph : KnowledgeGraph) (relations : List Relation) : KnowledgeGraph :=
  { graph with
    relations := graph.relations.filter
      (fun r => !relations.any (fun delRelation => sameTriple r delRelation)) }

/-- The key of a relation: its `(from, to, relationType)` triple. -/
def Relation.triple (r : Relation) : String × String × String :=
  (r.from_, r.to_, r.relationType)

/-- The names of the entities of a graph, in order. -/
def KnowledgeGraph.entityNames (g : KnowledgeGraph) : List String :=
  g.entities.map Entity.name

/-- No two stored relations have the same `(from, to, relationType)` triple. -/
def TripleUnique (g : KnowledgeGraph) : Prop :=
  (g.relations.map Relation.triple).Nodup

/-- No two stored entities have the same name. -/
def NameUnique (g : KnowledgeGraph) : Prop :=
  g.entityNames.Nodup

/-- Every stored relation starts and ends at the name of a stored entity. -/
def ReferentialIntegrity (g : KnowledgeGraph) : Prop :=
  ∀ r ∈ g.relations, r.from_ ∈ g.entityNames ∧ r.to_ ∈ g.entityNames

instance (g : KnowledgeGraph) : Decidable (TripleUnique g) := by
  unfold TripleUnique; infer_instance

instance (g : KnowledgeGraph) : Decidable (NameUnique g) := by
  unfold NameUnique; infer_instance

instance (g : KnowledgeGraph) : Decidable (ReferentialIntegrity g) := by
  unfold ReferentialIntegrity; infer_instance

/-- The number of stored relations with the triple of `r`. -/
def tripleCount (g : KnowledgeGraph) (r : Relation) : Nat :=
  (g.relations.filter (fun x => sameTriple x r)).length

/-- No entity's observation sequence holds the same string twice. -/
def ObservationsUnique (g : KnowledgeGraph) : Prop :=
  ∀ e ∈ g.entities, e.observations.Nodup

instance (g : KnowledgeGraph) : Decidable (ObservationsUnique g) := by
  unfold ObservationsUnique; infer_instance

/-! ## `index.ts`: the path finder -/

/-- An entry of the result of `findRelationshipPaths`. -/
structure RelationshipPath where
  path : List String
  relationshipTypes : List String
  deriving DecidableEq, Repr

/-- The two mutable objects the closure `findPaths` works on: the array `paths` and
the set `visited`. The set is a list without repetition: `add` appends a name that
is not yet in it, `delete` removes the name. -/
structure SearchState where
  paths : List RelationshipPath
  visited : List String
  deriving DecidableEq, Repr

/-- The closure `findPaths` of `findRelationshipPaths`, threading the state. The first
argument bounds the nesting of calls so that the recursion is structural; the checks
themselves are those of the source, on `depth` and `maxDepth`. -/
def findPaths (graph : KnowledgeGraph) (maxDepth : Nat) (target : String) :
    Nat → String → List String → List String → Nat → SearchState → SearchState
  | 0, _, _, _, _, state => state
  | fuel + 1, current, currentPath, currentRelationships, depth, state =>
    if depth > maxDepth then state
    else if current == target && decide (currentPath.length > 1) then
      { state with paths := state.paths ++ [⟨currentPath, currentRelationships⟩] }
    else if state.visited.contains current then state
    else
      let state1 : SearchState := { state with visited := state.visited ++ [current] }
      let outgoingRelations := graph.relations.filter (fun r => r.from_ == current)
      let state2 := outgoingRelations.foldl
        (fun st relation =>
          findPaths graph maxDepth target fuel relation.to_ (currentPath ++ [relation.to_])
            (currentRelationships ++ [relation.relationType]) (depth + 1) st)
        state1
      { state2 with visited := state2.visited.filter (fun v => v != current) }

/-- The method `findRelationshipPaths`, for a natural number `maxDepth`. A call at
depth `d` is only made for `d ≤ maxDepth + 1`, so `maxDepth + 2` nested calls are
never exceeded. -/
def findRelationshipPaths (graph : KnowledgeGraph) (fromEntity toEntity : String)
    (maxDepth : Nat) : List RelationshipPath :=
  (findPaths graph maxDepth toEntity (maxDepth + 2) fromEntity [fromEntity] [] 0
    { paths := [], visited := [] }).paths

/-- The entries one call of `findPaths` appends to `paths`, as a function of the
content of `visited` at the call (the call leaves `visited` as it found it). -/
def pathsFrom (graph : KnowledgeGraph) (maxDepth : Nat) (target : String) :
    Nat → String → List String → List String → Nat → List String → List RelationshipPath
  | 0, _, _, _, _, _ => []
  | fuel + 1, current, currentPath, currentRelationships, depth, visited =>
    if depth > maxDepth then []
    else if current == target && decide (currentPath.length > 1) then
      [⟨currentPath, currentRelationships⟩]
    else if visited.contains current then []
    else
      ((graph.relations.filter (fun r => r.from_ == current)).map (fun relation =>
        pathsFrom graph maxDepth target fuel relation.to_ (currentPath ++ [relation.to_])
          (currentRelationships ++ [relation.relationType]) (depth + 1)
          (visited ++ [current]))).flatten

/-- The relations followed by one branch of the search that ends by appending an
entry: the call for `current` (with a path of `pathLength` names, at `depth`, with
`visited` as given) follows `r`, then the call for `r.to` follows the next relation,
and the call reached after the last relation appends the entry. -/
def SearchBranch (graph : KnowledgeGraph) (maxDepth : Nat) (target : String) :
    List Relation → String → Nat → Nat → List String → Prop
  | [], current, pathLength, depth, _ =>
    depth ≤ maxDepth ∧ current = target ∧ 1 < pathLength
  | r :: rest, current, pathLength, depth, visited =>
    depth ≤ maxDepth ∧ ¬ (current = target ∧ 1 < pathLength) ∧ current ∉ visited ∧
    r ∈ graph.relations ∧ r.from_ = current ∧
    SearchBranch graph maxDepth target rest r.to_ (pathLength + 1) (depth + 1)
      (visited ++ [current])

/-- Consecutive relations: the first starts at `start` and each one starts where the
previous one ends. -/
def isChain : String → List Relation → Bool
  | _, [] => true
  | start, r :: rest => r.from_ == start && isChain r.to_ rest

/-! ## `index.ts`: loading and saving the memory file

`JSON.stringify` and `JSON.parse` belong to the runtime, not to the repository; they
are parameters of the model. A parsed line is seen through the types of `index.ts`. -/

/-- What `JSON.parse` returns for a line, as `loadGraph` uses it: an object whose
`type` is `"entity"` (used as an `Entity`), an object whose `type` is `"relation"`
(used as a `Relation`), the value `null` (reading `item.type` throws), or any other
value. The first two are also the objects `saveGraph` passes to `JSON.stringify`. -/
inductive Item where
  | entity (e : Entity)
  | relation (r : Relation)
  | null
  | other
  deriving DecidableEq, Repr

/-- The failures of a load. -/
inductive LoadError where
  | syntaxError (line : String)
  | typeError (line : String)
  | notFound
  deriving DecidableEq, Repr

/-- The line feed character, the separator used by `saveGraph` and `loadGraph`. -/
def lineFeed : Char := Char.ofNat 10

/-- The expression `lines.join("\n")`. -/
def joinLines : List String → String
  | [] => ""
  | [line] => line
  | line :: next :: rest => line ++ String.singleton lineFeed ++ joinLines (next :: rest)

/-- The expression `data.split("\n")`, on the characters of `data`. -/
def splitChars : List Char → List (List Char)
  | [] => [[]]
  | c :: cs =>
    if c = lineFeed then [] :: splitChars cs
    else
      match splitChars cs with
      | [] => [[c]]
      | line :: lines => (c :: line) :: lines

/-- The expression `data.split("\n")`. -/
def splitLines (data : String) : List String :=
  (splitChars data.data).map String.mk

/-- The characters `String.prototype.trim` removes: the ECMAScript `WhiteSpace` and
`LineTerminator` code points. -/
def isTrimmed (c : Char) : Bool :=
  [0x09, 0x0A, 0x0B, 0x0C, 0x0D, 0x20, 0xA0, 0x1680, 0x2000, 0x2001, 0x2002, 0x2003,
   0x2004, 0x2005, 0x2006, 0x2007, 0x2008, 0x2009, 0x200A, 0x2028, 0x2029, 0x202F,
   0x205F, 0x3000, 0xFEFF].contains c.toNat

/-- The test `line.trim() !== ""`. -/
def isNonBlank (line : String) : Bool :=
  !line.data.all isTrimmed

/-- The method `saveGraph`: the text written to the memory file. -/
def saveGraph (stringify : Item → String) (graph : KnowledgeGraph) : String :=
  joinLines
    (graph.entities.map (fun e => stringify (.entity e)) ++
      graph.relations.map (fun r => stringify (.relation r)))

/-- The callback of `lines.reduce` in `loadGraph`, applied from left to right:
`JSON.parse` throws on a line that is not JSON, and no line is skipped. -/
def loadLines (parse : String → Option Item) :
    List String → KnowledgeGraph → Except LoadError KnowledgeGraph
  | [], graph => .ok graph
  | line :: rest, graph =>
    match parse line with
    | none => .error (.syntaxError line)
    | some (.entity e) => loadLines parse rest { graph with entities := graph.entities ++ [e] }
    | some (.relation r) =>
      loadLines parse rest { graph with relations := graph.relations ++ [r] }
    | some .null => .error (.typeError line)
    | some .other => loadLines parse rest graph

/-- The method `loadGraph` of `KnowledgeGraphManager`, on the content of the memory
file (`none` when the file does not exist). An error other than `ENOENT`, such as the
one thrown by `JSON.parse`, is thrown again by the `catch` block. -/
def loadGraph (parse : String → Option Item) (file : Option String) :
    Except LoadError KnowledgeGraph :=
  match file with
  | none => .ok { entities := [], relations := [] }
  | some data =>
    loadLines parse ((splitLines data).filter isNonBlank) { entities := [], relations := [] }

/-- The function `loadKnowledgeGraph` of `scripts/validate-taxonomy.js`, which reads
the same file: each line is parsed inside its own `try`, and a line that fails is
skipped with a warning. -/
def loadKnowledgeGraph (parse : String → Option Item) (file : Option String) :
    Except LoadError KnowledgeGraph :=
  match file with
  | none => .error .notFound
  | some data =>
    .ok (((splitLines data).filter isNonBlank).foldl
      (fun graph line =>
        match parse line with
        | some (.entity e) => { graph with entities := graph.entities ++ [e] }
        | some (.relation r) => { graph with relations := graph.relations ++ [r] }
        | _ => graph)
      { entities := [], relations := [] })

/-- The objects `saveGraph` writes, one per line: the entities, then the relations. -/
def records (graph : KnowledgeGraph) : List Item :=
  graph.entities.map Item.entity ++ graph.relations.map Item.relation

/-- The entity of the example file. -/
def sampleEntity : Entity :=
  { name := "A", entityType := "note", telosCategory := some .CONTEXT, observations := ["x"] }

/-- The relation of the example file. -/
def sampleRelation : Relation :=
  { from_ := "A", to_ := "A", relationType := "supports", fromCategory := some .CONTEXT,
    toCategory := some .CONTEXT }

/-- The line `JSON.stringify` produces for `sampleEntity` tagged as an entity. -/
def sampleEntityLine : String :=
  "\x7b\"type\":\"entity\",\"name\":\"A\",\"entityType\":\"note\"," ++
    "\"telosCategory\":\"Context\",\"observations\":[\"x\"]\x7d"

/-- The line `JSON.stringify` produces for `sampleRelation` tagged as a relation. -/
def sampleRelationLine : String :=
  "\x7b\"type\":\"relation\",\"from\":\"A\",\"to\":\"A\",\"relationType\":\"supports\"," ++
    "\"fromCategory\":\"Context\",\"toCategory\":\"Context\"\x7d"

/-- The values of `JSON.stringify` on the two records of the example file (the value
on other entities and relations is not used). -/
def sampleStringify : Item → String
  | .entity _ => sampleEntityLine
  | .relation _ => sampleRelationLine
  | .null => "null"
  | .other => "0"

/-- The values of `JSON.parse` on the lines of the example files: the two record
lines, `null`, a number, and text that is not JSON. -/
def sampleParse (line : String) : Option Item :=
  if line = sampleEntityLine then some (.entity sampleEntity)
  else if line = sampleRelationLine then some (.relation sampleRelation)
  else if line = "null" then some .null
  else if line = "0" then some .other
  else none

/-! ## Further definitions: default table keys, search, bounded path search -/

/-- The constant `DEFAULT_RELATIONSHIPS` as it is written in the source: the entries
under their string keys, in insertion order. -/
def DEFAULT_RELATIONSHIPS_ENTRIES : List (String × RelationshipType) :=
  [("Habits-Projects", .SUPPORTS), ("Habits-Objectives", .SUPPORTS),
   ("Projects-Objectives", .SUPPORTS), ("Resources-Projects", .ENABLES),
   ("Resources-Habits", .ENABLES), ("Context-Projects", .CONSTRAINS),
   ("Context-Objectives", .CONSTRAINS), ("Memory-DecisionJournal", .INFORMS),
   ("Retros-Projects", .REFLECTS_ON), ("Retros-Habits", .REFLECTS_ON),
   ("Risks-Projects", .THREATENS), ("Risks-Objectives", .THREATENS),
   ("Conventions-Habits", .CONSTRAINS), ("Conventions-Projects", .CONSTRAINS)]

/-- The lookup `DEFAULT_RELATIONSHIPS[key]` with the key built by
`getDefaultRelationship` from the two category values. -/
def defaultRelationshipByKey (fromCategory toCategory : TelosCategory) :
    Option RelationshipType :=
  DEFAULT_RELATIONSHIPS_ENTRIES.lookup (fromCategory.value ++ "-" ++ toCategory.value)

/-- The method `searchNodes`: the graph returned. The set `filteredEntityNames` is the
list of the names of the filtered entities. -/
def searchNodes (toLowerCase : String → String) (graph : KnowledgeGraph) (query : String) :
    KnowledgeGraph :=
  let filteredEntities := graph.entities.filter (fun e =>
    includes (toLowerCase e.name) (toLowerCase query) ||
    includes (toLowerCase e.entityType) (toLowerCase query) ||
    e.observations.any (fun o => includes (toLowerCase o) (toLowerCase query)))
  let filteredEntityNames := filteredEntities.map (fun e => e.name)
  let filteredRelations := graph.relations.filter
    (fun r => filteredEntityNames.contains r.from_ && filteredEntityNames.contains r.to_)
  { entities := filteredEntities, relations := filteredRelations }

/-- The closure `findPaths` run with a limit on the number of calls that may be active
at once (the initial call included): the result is `none` as soon as a call would
exceed the limit. The body is that of `findPaths`. -/
def findPathsBounded (graph : KnowledgeGraph) (maxDepth : Nat) (target : String) :
    Nat → String → List String → List String → Nat → SearchState → Option SearchState
  | 0, _, _, _, _, _ => none
  | limit + 1, current, currentPath, currentRelationships, depth, state =>
    if depth > maxDepth then some state
    else if current == target && decide (currentPath.length > 1) then
      some { state with paths := state.paths ++ [⟨currentPath, currentRelationships⟩] }
    else if state.visited.contains current then some state
    else
      let state1 : SearchState := { state with visited := state.visited ++ [current] }
      let outgoingRelations := graph.relations.filter (fun r => r.from_ == current)
      match outgoingRelations.foldlM
        (fun st relation =>
          findPathsBounded graph maxDepth target limit relation.to_
            (currentPath ++ [relation.to_])
            (currentRelationships ++ [relation.relationType]) (depth + 1) st)
        state1 with
      | none => none
      | some state2 =>
        some { state2 with visited := state2.visited.filter (fun v => v != current) }

/-- The search text of `detectTelosCategory`: the lowercased name, a space, and the
observations joined by spaces. -/
def searchTextOf (toLowerCase : String → String) (entityName : String)
    (observations : List String) : String :=
  toLowerCase (entityName ++ " " ++ " ".intercalate observations)

/-- The loop body of `detectTelosCategory` for a given search text. -/
def bestMatchStep (toLowerCase : String → String) (searchText : String)
    (bestMatch : TelosCategory × Nat) (entry : TelosCategory × List String) :
    TelosCategory × Nat :=
  if keywordScore toLowerCase searchText entry.2 > bestMatch.2 then
    (entry.1, keywordScore toLowerCase searchText entry.2)
  else bestMatch

/-! ## `index.ts` at run time: categories as stored

The types of TypeScript are erased at run time: the field `telosCategory` of a stored
entity holds the string `createEntities` was given or the file contains. The
definitions below follow the source lines of `createEntities`, `getDefaultRelationship`,
`validateRelationship` and `createRelations` with a category a string, so that a
category outside `TelosCategory` and the exception it leads to can be stated. On
graphs whose categories are members of `TelosCategory` they agree with the
definitions above. -/

/-- An exception thrown while a method runs: the `TypeError` raised by
`allowedTypes.includes(...)` when `allowedTypes` is not an array. -/
inductive RuntimeError
  | typeError
  deriving DecidableEq, Repr

/-- The interface `Entity`, with the stored `telosCategory` a string. -/
structure UntypedEntity where
  name : String
  entityType : String
  telosCategory : Option String
  observations : List String
  deriving DecidableEq, Repr

/-- The interface `Relation`, with the stored categories strings. -/
structure UntypedRelation where
  from_ : String
  to_ : String
  relationType : String
  fromCategory : Option String
  toCategory : Option String
  deriving DecidableEq, Repr

/-- The interface `KnowledgeGraph` over entities and relations as stored. -/
structure UntypedGraph where
  entities : List UntypedEntity
  relations : List UntypedRelation
  deriving DecidableEq, Repr

/-- The expression `value || fallback` on an optional string: `value` when it is
present and not the empty string, else `fallback`. -/
def orElse (value : Option String) (fallback : String) : String :=
  match value with
  | some s => if s = "" then fallback else s
  | none => fallback

/-- The lookup `RELATIONSHIP_MATRIX[fromCategory]` for a string: the row of the
category with that value. For every other string the lookup yields `undefined` or a
property inherited from `Object.prototype`, and none of those is an array. -/
def matrixRow (fromCategory : String) : Option (List RelationshipType) :=
  (TelosCategory.values.find? (fun c => c.value == fromCategory)).map RELATIONSHIP_MATRIX

/-- The function `getDefaultRelationship` on strings: the entry of the table under
the key `fromCategory-toCategory`, or `supports`. -/
def getDefaultRelationshipUntyped (fromCategory toCategory : String) : RelationshipType :=
  match DEFAULT_RELATIONSHIPS_ENTRIES.lookup (fromCategory ++ "-" ++ toCategory) with
  | some t => t
  | none => .SUPPORTS

/-- The function `validateRelationship` on strings: it throws when
`RELATIONSHIP_MATRIX[fromCategory]` is not a row of the matrix. -/
def validateRelationshipUntyped (fromCategory toCategory : String)
    (relationshipType : RelationshipType) : Except RuntimeError ValidationResult :=
  match matrixRow fromCategory with
  | none => .error .typeError
  | some allowedTypes =>
    if ¬ allowedTypes.contains relationshipType then
      .ok { isValid := false
            allowedTypes := allowedTypes
            suggestedType := some (getDefaultRelationshipUntyped fromCategory toCategory)
            errorMessage := some ("Relationship type '" ++ relationshipType.value ++
              "' is not valid for category '" ++ fromCategory ++
              "'. Allowed types: " ++ joinTypes allowedTypes) }
    else if relationshipType = .MENTORS ∧ fromCategory ≠ TelosCategory.RELATIONSHIPS.value then
      .ok { isValid := false
            allowedTypes := allowedTypes
            suggestedType := none
            errorMessage := some ("Relationship type 'mentors' should only be used by people " ++
              "(Relationships category), not '" ++ fromCategory ++ "'") }
    else if relationshipType = .THREATENS ∧ fromCategory ≠ TelosCategory.RISKS.value then
      .ok { isValid := false
            allowedTypes := allowedTypes
            suggestedType := none
            errorMessage := some ("Relationship type 'threatens' should only be used by risks, " ++
              "not '" ++ fromCategory ++ "'") }
    else
      .ok { isValid := true
            allowedTypes := allowedTypes
            suggestedType := some relationshipType
            errorMessage := none }

/-- The method `createEntities` on entities as given: a category that is present and
not the empty string is stored as it is, without a check. -/
def createEntitiesUntyped (toLowerCase : String → String) (graph : UntypedGraph)
    (entities : List UntypedEntity) : UntypedGraph × List UntypedEntity :=
  let newEntities := entities.filter
    (fun e => !graph.entities.any (fun existingEntity => existingEntity.name == e.name))
  let entitiesWithCategories := newEntities.map (fun entity =>
    let telosCategory := orElse entity.telosCategory
      (detectTelosCategory toLowerCase entity.name entity.observations).value
    { entity with telosCategory := some telosCategory })
  ({ graph with entities := graph.entities ++ entitiesWithCategories }, entitiesWithCategories)

/-- The comparison of `createRelations` on relations as stored. -/
def sameTripleUntyped (a b : UntypedRelation) : Bool :=
  a.from_ == b.from_ && a.to_ == b.to_ && a.relationType == b.relationType

/-- One iteration of the loop of `createRelations` on a graph as stored: what it
pushes to `validatedRelations` and to `validationErrors`, or the exception thrown by
`validateRelationship`. -/
def createRelationsStepUntyped (graph : UntypedGraph) (relation : UntypedRelation) :
    Except RuntimeError (List UntypedRelation × List String) :=
  let exists_ := graph.relations.any
    (fun existingRelation => sameTripleUntyped existingRelation relation)
  if exists_ then .ok ([], [])
  else
    match graph.entities.find? (fun e => e.name == relation.from_),
          graph.entities.find? (fun e => e.name == relation.to_) with
    | some fromEntity, some toEntity =>
      let fromCategory := orElse fromEntity.telosCategory TelosCategory.CONTEXT.value
      let toCategory := orElse toEntity.telosCategory TelosCategory.CONTEXT.value
      match RelationshipType.ofValue? relation.relationType with
      | some relationshipType =>
        match validateRelationshipUntyped fromCategory toCategory relationshipType with
        | .error e => .error e
        | .ok validation =>
          if ¬ validation.isValid then
            let suggestedType := getDefaultRelationshipUntyped fromCategory toCategory
            .ok ([{ relation with
                      relationType := suggestedType.value
                      fromCategory := some fromCategory
                      toCategory := some toCategory }],
                 [validation.errorMessage.getD "undefined" ++ ". Suggested: '" ++
                    suggestedType.value ++ "'"])
          else
            .ok ([{ relation with
                      fromCategory := some fromCategory, toCategory := some toCategory }],
                 [])
      | none =>
        let suggestedType := getDefaultRelationshipUntyped fromCategory toCategory
        .ok ([{ relation with
                  relationType := suggestedType.value
                  fromCategory := some fromCategory
                  toCategory := some toCategory }],
             ["Unknown relationship type '" ++ relation.relationType ++
                "'. Using suggested: '" ++ suggestedType.value ++ "'"])
    | _, _ =>
      .ok ([], ["Entities not found for relation: " ++ relation.from_ ++ " -> " ++
        relation.to_])

/-- The loop of `createRelations` on a graph as stored, from the lists pushed so far:
an exception ends it. -/
def createRelationsLoopUntyped (graph : UntypedGraph) :
    List UntypedRelation → List UntypedRelation × List String →
      Except RuntimeError (List UntypedRelation × List String)
  | [], acc => .ok acc
  | relation :: rest, acc =>
    match createRelationsStepUntyped graph relation with
    | .error e => .error e
    | .ok pushed => createRelationsLoopUntyped graph rest (acc.1 ++ pushed.1, acc.2 ++ pushed.2)

/-- The outcome of `createRelations` on a graph as stored. -/
structure UntypedCreateRelationsResult where
  graph : UntypedGraph
  validatedRelations : List UntypedRelation
  validationErrors : List String
  deriving DecidableEq, Repr

/-- The method `createRelations` on a graph as stored: the graph that is saved, the
relations returned and the warnings logged, or the exception thrown in the loop,
before anything is saved. -/
def createRelationsUntyped (graph : UntypedGraph) (relations : List UntypedRelation) :
    Except RuntimeError UntypedCreateRelationsResult :=
  match createRelationsLoopUntyped graph relations ([], []) with
  | .error e => .error e
  | .ok acc =>
    .ok { graph := { graph with relations := graph.relations ++ acc.1 }
          validatedRelations := acc.1
          validationErrors := acc.2 }

/-- A stored entity whose category is a member of `TelosCategory`, as stored. -/
def Entity.toUntyped (e : Entity) : UntypedEntity :=
  { name := e.name, entityType := e.entityType,
    telosCategory := e.telosCategory.map TelosCategory.value, observations := e.observations }

/-- A relation whose categories are members of `TelosCategory`, as stored. -/
def Relation.toUntyped (r : Relation) : UntypedRelation :=
  { from_ := r.from_, to_ := r.to_, relationType := r.relationType,
    fromCategory := r.fromCategory.map TelosCategory.value,
    toCategory := r.toCategory.map TelosCategory.value }

/-- A graph whose categories are members of `TelosCategory`, as stored. -/
def KnowledgeGraph.toUntyped (g : KnowledgeGraph) : UntypedGraph :=
  { entities := g.entities.map Entity.toUntyped, relations := g.relations.map Relation.toUntyped }

/-! ## Auxiliary facts about the store operations -/

theorem contains_map_eq_find?_isSome (f : RelationshipType → String) (value : String)
    (l : List RelationshipType) :
    (l.map f).contains value = (l.find? (fun t => f t == value)).isSome := by
  induction l with
  | nil => rfl
  | cons t rest ih =>
    simp only [List.map_cons, List.contains_cons, List.find?_cons]
    by_cases h : f t = value
    · simp [h]
    · have h2 : (value == f t) = false := by simpa using fun h3 => h h3.symm
      have h3 : (f t == value) = false := by simpa using h
      simp only [h2, h3, Bool.false_or]
      exact ih

/-- The branch of `createRelations` taken under `isValidRelationshipType` is the one
where the cast `ofValue?` finds a member, and that member has the given string value. -/
theorem isValidRelationshipType_eq (value : String) :
    isValidRelationshipType value = (RelationshipType.ofValue? value).isSome :=
  contains_map_eq_find?_isSome RelationshipType.value value RelationshipType.values

theorem ofValue?_value (value : String) (t : RelationshipType)
    (h : RelationshipType.ofValue? value = some t) : t.value = value := by
  have h1 := List.find?_some h
  simpa using h1

theorem modifyFound_names (name : String) (f : Entity → Entity)
    (hf : ∀ e, (f e).name = e.name) (es : List Entity) :
    (modifyFound name f es).map Entity.name = es.map Entity.name := by
  induction es with
  | nil => rfl
  | cons e rest ih =>
    unfold modifyFound
    split
    · simp [hf]
    · simp [ih]

theorem addObservationsLoop_frame (os : List ObservationInput) :
    ∀ (g saved : KnowledgeGraph) (results : List ObservationResult),
      addObservationsLoop g os = .ok (saved, results) →
      saved.entityNames = g.entityNames ∧ saved.relations = g.relations := by
  induction os with
  | nil =>
    intro g saved results h
    simp only [addObservationsLoop, Except.ok.injEq, Prod.mk.injEq] at h
    obtain ⟨rfl, _⟩ := h
    exact ⟨rfl, rfl⟩
  | cons o rest ih =>
    intro g saved results h
    unfold addObservationsLoop at h
    split at h
    · cases h
    · rename_i entity hfind
      simp only at h
      split at h
      · cases h
      · rename_i graph2 results2 hrest
        simp only [Except.ok.injEq, Prod.mk.injEq] at h
        obtain ⟨rfl, _⟩ := h
        obtain ⟨h1, h2⟩ := ih _ _ _ hrest
        refine ⟨?_, h2⟩
        rw [h1]
        simp only [KnowledgeGraph.entityNames]
        apply modifyFound_names
        intro e
        rfl

theorem addObservationsSaved_frame (g : KnowledgeGraph) (os : List ObservationInput) :
    (addObservationsSaved g os).entityNames = g.entityNames ∧
      (addObservationsSaved g os).relations = g.relations := by
  unfold addObservationsSaved addObservations
  split
  · rename_i saved results h
    exact addObservationsLoop_frame os g saved results h
  · exact ⟨rfl, rfl⟩

theorem deleteObservations_frame (ds : List ObservationDeletion) :
    ∀ g : KnowledgeGraph,
      (deleteObservations g ds).entityNames = g.entityNames ∧
        (deleteObservations g ds).relations = g.relations := by
  induction ds with
  | nil => intro g; exact ⟨rfl, rfl⟩
  | cons d rest ih =>
    intro g
    unfold deleteObservations
    rw [List.foldl_cons]
    split
    · obtain ⟨h1, h2⟩ := ih
        { g with
          entities := modifyFound d.entityName
            (fun e => { e with
              observations := e.observations.filter (fun o => !d.observations.contains o) })
            g.entities }
      unfold deleteObservations at h1 h2
      refine ⟨?_, ?_⟩
      · rw [h1]
        simp only [KnowledgeGraph.entityNames]
        apply modifyFound_names
        intro e
        rfl
      · rw [h2]
    · exact ih g

theorem createRelations_foldl (g : KnowledgeGraph) (rs : List Relation) :
    ∀ acc : List Relation × List String,
      rs.foldl
        (fun (acc : List Relation × List String) relation =>
          (acc.1 ++ (createRelationsStep g relation).1,
           acc.2 ++ (createRelationsStep g relation).2))
        acc =
      (acc.1 ++ (rs.map (fun r => (createRelationsStep g r).1)).flatten,
       acc.2 ++ (rs.map (fun r => (createRelationsStep g r).2)).flatten) := by
  induction rs with
  | nil => intro acc; simp
  | cons r rest ih =>
    intro acc
    rw [List.foldl_cons, ih]
    simp [List.append_assoc]

theorem createRelations_validated (g : KnowledgeGraph) (rs : List Relation) :
    (createRelations g rs).validatedRelations =
      (rs.map (fun r => (createRelationsStep g r).1)).flatten := by
  unfold createRelations
  simp only []
  rw [createRelations_foldl]
  simp

theorem createRelations_graph (g : KnowledgeGraph) (rs : List Relation) :
    (createRelations g rs).graph =
      { g with relations := g.relations ++ (createRelations g rs).validatedRelations } := by
  rfl

theorem createRelationsStep_mem (g : KnowledgeGraph) (r x : Relation)
    (hx : x ∈ (createRelationsStep g r).1) :
    x.from_ = r.from_ ∧ x.to_ = r.to_ ∧ r.from_ ∈ g.entityNames ∧ r.to_ ∈ g.entityNames ∧
      g.relations.any (fun existingRelation => sameTriple existingRelation r) = false := by
  unfold createRelationsStep at hx
  simp only at hx
  split at hx
  · simp at hx
  · rename_i hex
    have hex2 : g.relations.any (fun existingRelation => sameTriple existingRelation r) = false := by
      simpa using hex
    split at hx
    · rename_i fromEntity toEntity hf ht
      have hfrom : r.from_ ∈ g.entityNames := by
        have h1 := List.find?_some hf
        have h2 := List.mem_of_find?_eq_some hf
        simp only [beq_iff_eq] at h1
        rw [← h1]
        exact List.mem_map_of_mem _ h2
      have hto : r.to_ ∈ g.entityNames := by
        have h1 := List.find?_some ht
        have h2 := List.mem_of_find?_eq_some ht
        simp only [beq_iff_eq] at h1
        rw [← h1]
        exact List.mem_map_of_mem _ h2
      split at hx
      · split at hx
        · simp only [List.mem_singleton] at hx
          subst hx
          exact ⟨rfl, rfl, hfrom, hto, hex2⟩
        · simp only [List.mem_singleton] at hx
          subst hx
          exact ⟨rfl, rfl, hfrom, hto, hex2⟩
      · simp only [List.mem_singleton] at hx
        subst hx
        exact ⟨rfl, rfl, hfrom, hto, hex2⟩
    · simp at hx

theorem createRelations_validated_mem (g : KnowledgeGraph) (rs : List Relation) (x : Relation)
    (hx : x ∈ (createRelations g rs).validatedRelations) :
    ∃ r ∈ rs, x ∈ (createRelationsStep g r).1 := by
  rw [createRelations_validated] at hx
  simp only [List.mem_flatten, List.mem_map] at hx
  obtain ⟨l, ⟨r, hr, rfl⟩, hxl⟩ := hx
  exact ⟨r, hr, hxl⟩

theorem find?_name_eq_none (es : List Entity) (name : String) :
    es.find? (fun e => e.name == name) = none ↔ name ∉ es.map Entity.name := by
  rw [List.find?_eq_none]
  simp only [beq_iff_eq, List.mem_map, not_exists, not_and]

theorem find?_split (es : List Entity) (name : String) (e : Entity) (f : Entity → Entity)
    (h : es.find? (fun x => x.name == name) = some e) :
    e.name = name ∧ ∃ pre post, es = pre ++ e :: post ∧ (∀ x ∈ pre, x.name ≠ name) ∧
      modifyFound name f es = pre ++ f e :: post := by
  induction es with
  | nil => simp at h
  | cons x rest ih =>
    rw [List.find?_cons] at h
    by_cases hx : x.name = name
    · have hx2 : (x.name == name) = true := by simpa using hx
      simp only [hx2, Option.some.injEq] at h
      subst h
      refine ⟨hx, [], rest, rfl, by simp, ?_⟩
      simp [modifyFound, hx2]
    · have hx2 : (x.name == name) = false := by simpa using hx
      simp only [hx2] at h
      obtain ⟨h1, pre, post, h2, h3, h4⟩ := ih h
      refine ⟨h1, x :: pre, post, by simp [h2], ?_, ?_⟩
      · intro y hy
        rcases List.mem_cons.mp hy with rfl | hy
        · exact hx
        · exact h3 y hy
      · simp only [modifyFound, hx2, Bool.false_eq_true, if_false, h4, List.cons_append]

theorem addObservationsLoop_error (os : List ObservationInput) :
    ∀ (g : KnowledgeGraph) (message : String), addObservationsLoop g os = .error message →
      ∃ o ∈ os, o.entityName ∉ g.entityNames ∧
        message = "Entity with name " ++ o.entityName ++ " not found" := by
  induction os with
  | nil => intro g message h; simp [addObservationsLoop] at h
  | cons o rest ih =>
    intro g message h
    unfold addObservationsLoop at h
    split at h
    · rename_i hfind
      simp only [Except.error.injEq] at h
      exact ⟨o, List.mem_cons_self _ _, (find?_name_eq_none _ _).mp hfind, h.symm⟩
    · rename_i entity hfind
      simp only at h
      split at h
      · rename_i message2 hrest
        simp only [Except.error.injEq] at h
        subst h
        obtain ⟨o2, ho2, hn, hm⟩ := ih _ _ hrest
        refine ⟨o2, List.mem_cons_of_mem _ ho2, ?_, hm⟩
        have hnames : ∀ g1 : KnowledgeGraph, g1.entityNames = g.entityNames →
            o2.entityName ∉ g1.entityNames → o2.entityName ∉ g.entityNames := by
          intro g1 h1 h2; rwa [h1] at h2
        refine hnames _ ?_ hn
        simp only [KnowledgeGraph.entityNames]
        apply modifyFound_names
        intro e
        rfl
      · cases h

theorem addObservationsLoop_ok (os : List ObservationInput) :
    ∀ g : KnowledgeGraph, (∀ o ∈ os, o.entityName ∈ g.entityNames) →
      ∃ saved results, addObservationsLoop g os = .ok (saved, results) := by
  induction os with
  | nil => intro g _; exact ⟨g, [], rfl⟩
  | cons o rest ih =>
    intro g h
    unfold addObservationsLoop
    split
    · rename_i hfind
      exact absurd (h o (List.mem_cons_self _ _)) ((find?_name_eq_none _ _).mp hfind)
    · rename_i entity hfind
      simp only
      have hrest := ih
        { g with
          entities := modifyFound o.entityName
            (fun e => { e with observations := e.observations ++
              o.contents.filter (fun content => !entity.observations.contains content) })
            g.entities } ?_
      · obtain ⟨saved, results, hok⟩ := hrest
        rw [hok]
        exact ⟨_, _, rfl⟩
      · intro o2 ho2
        have h2 := h o2 (List.mem_cons_of_mem _ ho2)
        simp only [KnowledgeGraph.entityNames] at h2 ⊢
        have hn : ∀ f : Entity → Entity, (∀ e, (f e).name = e.name) →
            o2.entityName ∈ List.map Entity.name (modifyFound o.entityName f g.entities) := by
          intro f hf
          rw [modifyFound_names _ _ hf]
          exact h2
        apply hn
        intro e
        rfl

theorem createRelationsStep_pushed (g : KnowledgeGraph) (rs : List Relation) (r x : Relation)
    (hr : r ∈ rs) (hx : x ∈ (createRelationsStep g r).1) :
    x ∈ (createRelations g rs).validatedRelations ∧ x ∈ (createRelations g rs).graph.relations := by
  have hmem : x ∈ (createRelations g rs).validatedRelations := by
    rw [createRelations_validated]
    simp only [List.mem_flatten, List.mem_map]
    exact ⟨_, ⟨r, hr, rfl⟩, hx⟩
  refine ⟨hmem, ?_⟩
  rw [createRelations_graph]
  exact List.mem_append_right _ hmem

/-! ## Auxiliary facts about the path finder -/

theorem foldl_findPaths (f : SearchState → Relation → SearchState)
    (h : Relation → List String → List RelationshipPath)
    (hf : ∀ st r, f st r = ⟨st.paths ++ h r st.visited, st.visited⟩) (rs : List Relation) :
    ∀ st : SearchState,
      rs.foldl f st = ⟨st.paths ++ (rs.map (fun r => h r st.visited)).flatten, st.visited⟩ := by
  induction rs with
  | nil => intro st; simp
  | cons r rest ih =>
    intro st
    rw [List.foldl_cons, ih, hf]
    simp [List.append_assoc]

theorem findPaths_eq (g : KnowledgeGraph) (maxDepth : Nat) (target : String) (fuel : Nat) :
    ∀ (current : String) (currentPath currentRelationships : List String) (depth : Nat)
      (state : SearchState),
      findPaths g maxDepth target fuel current currentPath currentRelationships depth state =
        ⟨state.paths ++ pathsFrom g maxDepth target fuel current currentPath
            currentRelationships depth state.visited, state.visited⟩ := by
  induction fuel with
  | zero => intro current cp cr depth state; simp [findPaths, pathsFrom]
  | succ fuel ih =>
    intro current cp cr depth state
    unfold findPaths pathsFrom
    split_ifs with h1 h2 h3
    · simp
    · rfl
    · simp
    · simp only []
      rw [foldl_findPaths _
        (fun relation visited => pathsFrom g maxDepth target fuel relation.to_
          (cp ++ [relation.to_]) (cr ++ [relation.relationType]) (depth + 1) visited)
        (fun st r => ih _ _ _ _ st)]
      have hnot : current ∉ state.visited := by simpa using h3
      have hfilter : (state.visited ++ [current]).filter (fun v => v != current) =
          state.visited := by
        rw [List.filter_append]
        have h4 : state.visited.filter (fun v => v != current) = state.visited := by
          rw [List.filter_eq_self]
          intro v hv
          have : v ≠ current := fun hvc => hnot (hvc ▸ hv)
          simpa using this
        simp [h4]
      simp only [hfilter]

theorem findRelationshipPaths_eq (g : KnowledgeGraph) (fromEntity toEntity : String)
    (maxDepth : Nat) :
    findRelationshipPaths g fromEntity toEntity maxDepth =
      pathsFrom g maxDepth toEntity (maxDepth + 2) fromEntity [fromEntity] [] 0 [] := by
  unfold findRelationshipPaths
  rw [findPaths_eq]
  simp

theorem mem_pathsFrom (g : KnowledgeGraph) (maxDepth : Nat) (target : String) (fuel : Nat) :
    ∀ (current : String) (cp cr : List String) (depth : Nat) (visited : List String)
      (e : RelationshipPath), maxDepth + 1 ≤ fuel + depth →
      (e ∈ pathsFrom g maxDepth target fuel current cp cr depth visited ↔
        ∃ rs, SearchBranch g maxDepth target rs current cp.length depth visited ∧
          e = ⟨cp ++ rs.map Relation.to_, cr ++ rs.map Relation.relationType⟩) := by
  induction fuel with
  | zero =>
    intro current cp cr depth visited e hfuel
    simp only [pathsFrom, List.not_mem_nil, false_iff, not_exists, not_and]
    intro rs hrs
    cases rs with
    | nil => exact absurd hrs.1 (by omega)
    | cons r rest => exact absurd hrs.1 (by omega)
  | succ fuel ih =>
    intro current cp cr depth visited e hfuel
    unfold pathsFrom
    split_ifs with h1 h2 h3
    · simp only [List.not_mem_nil, false_iff, not_exists, not_and]
      intro rs hrs
      cases rs with
      | nil => exact absurd hrs.1 (by omega)
      | cons r rest => exact absurd hrs.1 (by omega)
    · have hd : depth ≤ maxDepth := by omega
      have h2c : current = target ∧ 1 < cp.length := by simpa using h2
      simp only [List.mem_singleton]
      constructor
      · intro he
        exact ⟨[], ⟨hd, h2c.1, h2c.2⟩, by simp [he]⟩
      · rintro ⟨rs, hrs, he⟩
        cases rs with
        | nil => simpa using he
        | cons r rest => exact absurd h2c hrs.2.1
    · have h2c : ¬ (current = target ∧ 1 < cp.length) := by simpa using h2
      have hin : current ∈ visited := by simpa using h3
      simp only [List.not_mem_nil, false_iff, not_exists, not_and]
      intro rs hrs
      cases rs with
      | nil => exact absurd ⟨hrs.2.1, hrs.2.2⟩ h2c
      | cons r rest => exact absurd hin hrs.2.2.1
    · have hd : depth ≤ maxDepth := by omega
      have h2c : ¬ (current = target ∧ 1 < cp.length) := by simpa using h2
      have hnot : current ∉ visited := by simpa using h3
      simp only [List.mem_flatten, List.mem_map, List.mem_filter, beq_iff_eq]
      constructor
      · rintro ⟨l, ⟨r, ⟨hr, hrc⟩, rfl⟩, hel⟩
        obtain ⟨rest, hrest, he⟩ := (ih _ _ _ _ _ e (by omega)).mp hel
        refine ⟨r :: rest, ⟨hd, h2c, hnot, hr, hrc, ?_⟩, ?_⟩
        · simpa using hrest
        · simp [he, List.append_assoc]
      · rintro ⟨rs, hrs, he⟩
        cases rs with
        | nil => exact absurd ⟨hrs.2.1, hrs.2.2⟩ h2c
        | cons r rest =>
          obtain ⟨_, _, _, hr, hrc, hrest⟩ := hrs
          refine ⟨_, ⟨r, ⟨hr, hrc⟩, rfl⟩, ?_⟩
          refine (ih _ _ _ _ _ e (by omega)).mpr ⟨rest, ?_, ?_⟩
          · simpa using hrest
          · simp [he, List.append_assoc]

theorem mem_findRelationshipPaths (g : KnowledgeGraph) (fromEntity toEntity : String)
    (maxDepth : Nat) (e : RelationshipPath) :
    e ∈ findRelationshipPaths g fromEntity toEntity maxDepth ↔
      ∃ rs, SearchBranch g maxDepth toEntity rs fromEntity 1 0 [] ∧
        e = ⟨fromEntity :: rs.map Relation.to_, rs.map Relation.relationType⟩ := by
  rw [findRelationshipPaths_eq, mem_pathsFrom g maxDepth toEntity (maxDepth + 2) fromEntity
    [fromEntity] [] 0 [] e (by omega)]
  simp

theorem SearchBranch.stored {g : KnowledgeGraph} {maxDepth : Nat} {target : String}
    (rs : List Relation) :
    ∀ {current : String} {len depth : Nat} {visited : List String},
      SearchBranch g maxDepth target rs current len depth visited →
      ∀ r ∈ rs, r ∈ g.relations := by
  induction rs with
  | nil => intro _ _ _ _ _ r hr; simp at hr
  | cons r0 rest ih =>
    intro current len depth visited h r hr
    obtain ⟨_, _, _, h0, _, hrest⟩ := h
    rcases List.mem_cons.mp hr with rfl | hr
    · exact h0
    · exact ih hrest r hr

theorem SearchBranch.depth_le {g : KnowledgeGraph} {maxDepth : Nat} {target : String}
    (rs : List Relation) :
    ∀ {current : String} {len depth : Nat} {visited : List String},
      SearchBranch g maxDepth target rs current len depth visited →
      depth + rs.length ≤ maxDepth := by
  induction rs with
  | nil => intro _ _ _ _ h; simpa using h.1
  | cons r0 rest ih =>
    intro current len depth visited h
    obtain ⟨_, _, _, _, _, hrest⟩ := h
    have := ih hrest
    simp only [List.length_cons]
    omega

theorem SearchBranch.path_eq {g : KnowledgeGraph} {maxDepth : Nat} {target : String}
    (rs : List Relation) :
    ∀ {current : String} {len depth : Nat} {visited : List String},
      SearchBranch g maxDepth target rs current len depth visited →
      current :: rs.map Relation.to_ = rs.map Relation.from_ ++ [target] := by
  induction rs with
  | nil => intro _ _ _ _ h; simp [h.2.1]
  | cons r0 rest ih =>
    intro current len depth visited h
    obtain ⟨_, _, _, _, hfrom, hrest⟩ := h
    have := ih hrest
    simp only [List.map_cons, List.cons_append, this, hfrom]

theorem SearchBranch.chain {g : KnowledgeGraph} {maxDepth : Nat} {target : String}
    (rs : List Relation) :
    ∀ {current : String} {len depth : Nat} {visited : List String},
      SearchBranch g maxDepth target rs current len depth visited →
      isChain current rs = true := by
  induction rs with
  | nil => intro _ _ _ _ _; rfl
  | cons r0 rest ih =>
    intro current len depth visited h
    obtain ⟨_, _, _, _, hfrom, hrest⟩ := h
    simp [isChain, hfrom, ih hrest]

theorem SearchBranch.nodup {g : KnowledgeGraph} {maxDepth : Nat} {target : String}
    (rs : List Relation) :
    ∀ {current : String} {len depth : Nat} {visited : List String},
      SearchBranch g maxDepth target rs current len depth visited →
      (rs.map Relation.from_).Nodup ∧ ∀ n ∈ rs.map Relation.from_, n ∉ visited := by
  induction rs with
  | nil => intro _ _ _ _ _; simp
  | cons r0 rest ih =>
    intro current len depth visited h
    obtain ⟨_, _, hvis, _, hfrom, hrest⟩ := h
    obtain ⟨h1, h2⟩ := ih hrest
    refine ⟨?_, ?_⟩
    · rw [List.map_cons, List.nodup_cons]
      refine ⟨?_, h1⟩
      intro hmem
      have := h2 _ hmem
      simp [hfrom] at this
    · intro n hn
      rw [List.map_cons, List.mem_cons] at hn
      rcases hn with rfl | hn
      · rw [hfrom]; exact hvis
      · have := h2 n hn
        simp only [List.mem_append, not_or] at this
        exact this.1

theorem SearchBranch.inner {g : KnowledgeGraph} {maxDepth : Nat} {target : String}
    (rs : List Relation) :
    ∀ {current : String} {len depth : Nat} {visited : List String},
      SearchBranch g maxDepth target rs current len depth visited → 1 < len →
      ∀ n ∈ rs.map Relation.from_, n ≠ target := by
  induction rs with
  | nil => intro _ _ _ _ _ _ n hn; simp at hn
  | cons r0 rest ih =>
    intro current len depth visited h hlen n hn
    obtain ⟨_, hemit, _, _, hfrom, hrest⟩ := h
    rw [List.map_cons, List.mem_cons] at hn
    rcases hn with rfl | hn
    · intro hc
      exact hemit ⟨by rw [← hfrom]; exact hc, hlen⟩
    · exact ih hrest (by omega) n hn

theorem SearchBranch.ne_nil {g : KnowledgeGraph} {maxDepth : Nat} {target : String}
    {rs : List Relation} {current : String} {len depth : Nat} {visited : List String}
    (h : SearchBranch g maxDepth target rs current len depth visited) (hlen : len ≤ 1) :
    rs ≠ [] := by
  intro hnil
  subst hnil
  have := h.2.2
  omega

theorem SearchBranch.build {g : KnowledgeGraph} {maxDepth : Nat} {target : String}
    (rs : List Relation) :
    ∀ (current : String) (len depth : Nat) (visited : List String),
      (∀ r ∈ rs, r ∈ g.relations) → isChain current rs = true →
      depth + rs.length ≤ maxDepth →
      (current :: rs.map Relation.to_).getLast? = some target →
      0 < len → (rs = [] → 1 < len) → (rs ≠ [] → len ≤ 1 ∨ current ≠ target) →
      (rs.map Relation.from_).Nodup → (∀ n ∈ rs.map Relation.from_, n ∉ visited) →
      (∀ r ∈ rs.tail, r.from_ ≠ target) →
      SearchBranch g maxDepth target rs current len depth visited := by
  induction rs with
  | nil =>
    intro current len depth visited _ _ hd hlast _ hlen _ _ _ _
    refine ⟨by simpa using hd, ?_, hlen rfl⟩
    simpa using hlast
  | cons r rest ih =>
    intro current len depth visited hstored hchain hd hlast hpos _ hemit hnodup hvis htail
    simp only [isChain, Bool.and_eq_true, beq_iff_eq] at hchain
    obtain ⟨hfrom, hchain2⟩ := hchain
    simp only [List.length_cons] at hd
    rw [List.map_cons, List.nodup_cons] at hnodup
    refine ⟨by omega, ?_, ?_, hstored r (List.mem_cons_self _ _), hfrom, ?_⟩
    · intro hc
      rcases hemit (by simp) with h | h
      · omega
      · exact h hc.1
    · have := hvis r.from_ (by simp)
      rwa [hfrom] at this
    · apply ih
      · intro r2 hr2; exact hstored r2 (List.mem_cons_of_mem _ hr2)
      · exact hchain2
      · omega
      · simpa using hlast
      · omega
      · intro _; omega
      · intro hne
        right
        cases rest with
        | nil => exact absurd rfl hne
        | cons r2 rest2 =>
          simp only [isChain, Bool.and_eq_true, beq_iff_eq] at hchain2
          rw [← hchain2.1]
          exact htail r2 (by simp)
      · exact hnodup.2
      · intro n hn
        simp only [List.mem_append, List.mem_singleton, not_or]
        refine ⟨hvis n (by simp [List.mem_map] at hn ⊢; exact Or.inr hn), ?_⟩
        intro hc
        apply hnodup.1
        rw [hfrom, ← hc]
        exact hn
      · intro r2 hr2
        exact htail r2 (by simpa using List.mem_of_mem_tail hr2)

theorem isChain_nodes (rs : List Relation) :
    ∀ current : String, isChain current rs = true → rs ≠ [] →
      current :: rs.dropLast.map Relation.to_ = rs.map Relation.from_ := by
  induction rs with
  | nil => intro _ _ h; exact absurd rfl h
  | cons r rest ih =>
    intro current hchain _
    simp only [isChain, Bool.and_eq_true, beq_iff_eq] at hchain
    cases rest with
    | nil => simp [hchain.1]
    | cons r2 rest2 =>
      have := ih r.to_ hchain.2 (by simp)
      simp only [List.dropLast_cons₂, List.map_cons, hchain.1, List.cons.injEq, true_and]
      simpa using this

/-! ## Auxiliary facts about the memory file -/

theorem splitChars_single (l : List Char) (h : lineFeed ∉ l) : splitChars l = [l] := by
  induction l with
  | nil => rfl
  | cons c cs ih =>
    rw [List.mem_cons, not_or] at h
    have hc : c ≠ lineFeed := fun hc => h.1 hc.symm
    simp only [splitChars, hc, if_false, ih h.2]

theorem splitChars_append (l rest : List Char) (h : lineFeed ∉ l) :
    splitChars (l ++ lineFeed :: rest) = l :: splitChars rest := by
  induction l with
  | nil => simp [splitChars]
  | cons c cs ih =>
    rw [List.mem_cons, not_or] at h
    have hc : c ≠ lineFeed := fun hc => h.1 hc.symm
    show splitChars (c :: (cs ++ lineFeed :: rest)) = (c :: cs) :: splitChars rest
    simp only [splitChars, hc, if_false, ih h.2]

theorem splitLines_joinLines (lines : List String) (hne : lines ≠ [])
    (h : ∀ line ∈ lines, lineFeed ∉ line.data) : splitLines (joinLines lines) = lines := by
  induction lines with
  | nil => exact absurd rfl hne
  | cons line rest ih =>
    cases rest with
    | nil =>
      simp only [joinLines, splitLines]
      rw [splitChars_single _ (h line (List.mem_cons_self _ _))]
      rfl
    | cons next rest2 =>
      have ih2 := ih (by simp) (fun l hl => h l (List.mem_cons_of_mem _ hl))
      simp only [splitLines] at ih2 ⊢
      have hdata : (String.singleton lineFeed).data = [lineFeed] := rfl
      simp only [joinLines, String.data_append, hdata, List.append_assoc, List.singleton_append]
      rw [splitChars_append _ _ (h line (List.mem_cons_self _ _)), List.map_cons, ih2]

theorem loadLines_records (stringify : Item → String) (parse : String → Option Item)
    (es : List Entity) (rs : List Relation) :
    ∀ graph : KnowledgeGraph,
      (∀ e ∈ es, parse (stringify (.entity e)) = some (.entity e)) →
      (∀ r ∈ rs, parse (stringify (.relation r)) = some (.relation r)) →
      loadLines parse
          (es.map (fun e => stringify (.entity e)) ++ rs.map (fun r => stringify (.relation r)))
          graph =
        .ok { entities := graph.entities ++ es, relations := graph.relations ++ rs } := by
  induction es with
  | nil =>
    induction rs with
    | nil => intro graph _ _; simp [loadLines]
    | cons r rest ih =>
      intro graph he hr
      have h1 := hr r (List.mem_cons_self _ _)
      have h2 := ih { graph with relations := graph.relations ++ [r] } he
        (fun x hx => hr x (List.mem_cons_of_mem _ hx))
      simp only [List.map_nil, List.nil_append, List.map_cons, loadLines, h1] at h2 ⊢
      rw [h2]
      simp
  | cons e rest ih =>
    intro graph he hr
    have h1 := he e (List.mem_cons_self _ _)
    have h2 := ih { graph with entities := graph.entities ++ [e] }
      (fun x hx => he x (List.mem_cons_of_mem _ hx)) hr
    simp only [List.map_cons, List.cons_append, loadLines, h1, List.append_eq] at h2 ⊢
    rw [h2]
    simp

theorem loadLines_malformed (parse : String → Option Item) (lines : List String) :
    ∀ graph : KnowledgeGraph, (∃ line ∈ lines, parse line = none) →
      ∃ line ∈ lines, loadLines parse lines graph = .error (.syntaxError line) ∨
        loadLines parse lines graph = .error (.typeError line) := by
  induction lines with
  | nil => intro graph h; simp at h
  | cons line rest ih =>
    intro graph h
    cases hp : parse line with
    | none => exact ⟨line, List.mem_cons_self _ _, Or.inl (by simp [loadLines, hp])⟩
    | some item =>
      have hrest : ∃ l ∈ rest, parse l = none := by
        obtain ⟨l, hl, hn⟩ := h
        rcases List.mem_cons.mp hl with rfl | hl
        · rw [hp] at hn; cases hn
        · exact ⟨l, hl, hn⟩
      cases item with
      | entity e =>
        obtain ⟨l, hl, hres⟩ := ih { graph with entities := graph.entities ++ [e] } hrest
        exact ⟨l, List.mem_cons_of_mem _ hl, by simpa [loadLines, hp] using hres⟩
      | relation r =>
        obtain ⟨l, hl, hres⟩ := ih { graph with relations := graph.relations ++ [r] } hrest
        exact ⟨l, List.mem_cons_of_mem _ hl, by simpa [loadLines, hp] using hres⟩
      | null => exact ⟨line, List.mem_cons_self _ _, Or.inr (by simp [loadLines, hp])⟩
      | other =>
        obtain ⟨l, hl, hres⟩ := ih graph hrest
        exact ⟨l, List.mem_cons_of_mem _ hl, by simpa [loadLines, hp] using hres⟩

/-- The bound on nested calls is never the reason a call of `findPaths` returns: once
it covers the calls up to depth `maxDepth + 1`, a larger bound gives the same entries. -/
theorem pathsFrom_fuel (g : KnowledgeGraph) (maxDepth : Nat) (target : String) (fuel : Nat) :
    ∀ (current : String) (cp cr : List String) (depth : Nat) (visited : List String),
      maxDepth + 1 ≤ fuel + depth →
      pathsFrom g maxDepth target (fuel + 1) current cp cr depth visited =
        pathsFrom g maxDepth target fuel current cp cr depth visited := by
  induction fuel with
  | zero =>
    intro current cp cr depth visited h
    have hd : depth > maxDepth := by omega
    simp [pathsFrom, hd]
  | succ fuel ih =>
    intro current cp cr depth visited h
    rw [pathsFrom, pathsFrom]
    split_ifs with h1 h2 h3
    · rfl
    · rfl
    · rfl
    · congr 1
      apply List.map_congr_left
      intro r _
      exact ih _ _ _ _ _ (by omega)

theorem findPaths_fuel (g : KnowledgeGraph) (fromEntity toEntity : String) (maxDepth : Nat)
    (extra : Nat) :
    (findPaths g maxDepth toEntity (maxDepth + 2 + extra) fromEntity [fromEntity] [] 0
      { paths := [], visited := [] }).paths =
      findRelationshipPaths g fromEntity toEntity maxDepth := by
  induction extra with
  | zero => rfl
  | succ n ih =>
    rw [← ih, findPaths_eq, findPaths_eq]
    simp only [List.nil_append]
    exact pathsFrom_fuel g maxDepth toEntity (maxDepth + 2 + n) fromEntity [fromEntity] [] 0 []
      (by omega)

/-! ## Auxiliary facts about relation types -/

theorem isValidRelationshipType_value (t : RelationshipType) :
    isValidRelationshipType t.value = true := by
  cases t <;> decide

theorem createRelationsStep_type (g : KnowledgeGraph) (r x : Relation)
    (hx : x ∈ (createRelationsStep g r).1) :
    isValidRelationshipType x.relationType = true := by
  unfold createRelationsStep at hx
  simp only at hx
  split at hx
  · simp at hx
  · split at hx
    · split at hx
      · rename_i t ht
        split at hx
        · simp only [List.mem_singleton] at hx
          subst hx
          exact isValidRelationshipType_value _
        · simp only [List.mem_singleton] at hx
          subst hx
          show isValidRelationshipType r.relationType = true
          rw [← ofValue?_value _ _ ht]
          exact isValidRelationshipType_value _
      · simp only [List.mem_singleton] at hx
        subst hx
        exact isValidRelationshipType_value _
    · simp at hx

/-! ## Auxiliary facts about substring search and the classifier -/

theorem includes_iff (s k : String) : includes s k = true ↔ k.data <:+: s.data := by
  unfold includes
  rw [List.any_eq_true, List.infix_iff_prefix_suffix]
  constructor
  · rintro ⟨t, ht, hp⟩
    exact ⟨t, List.isPrefixOf_iff_prefix.mp hp, (List.mem_tails _ _).mp ht⟩
  · rintro ⟨t, hp, ht⟩
    exact ⟨t, (List.mem_tails _ _).mpr ht, List.isPrefixOf_iff_prefix.mpr hp⟩

theorem keywordScore_foldl (toLowerCase : String → String) (text : String)
    (keywords : List String) :
    ∀ n : Nat,
      keywords.foldl
        (fun count keyword => count + (if includes text (toLowerCase keyword) then 1 else 0)) n =
      n + (keywords.filter (fun k => includes text (toLowerCase k))).length := by
  induction keywords with
  | nil => intro n; simp
  | cons k rest ih =>
    intro n
    rw [List.foldl_cons, ih]
    by_cases h : includes text (toLowerCase k) = true
    · simp [List.filter_cons, h]; omega
    · simp [List.filter_cons, h]

theorem keywordScore_eq (toLowerCase : String → String) (text : String)
    (keywords : List String) :
    keywordScore toLowerCase text keywords =
      (keywords.filter (fun k => includes text (toLowerCase k))).length := by
  unfold keywordScore
  rw [keywordScore_foldl]
  simp

theorem detectTelosCategory_eq (toLowerCase : String → String) (entityName : String)
    (observations : List String) :
    detectTelosCategory toLowerCase entityName observations =
      (CATEGORY_KEYWORDS.foldl
        (bestMatchStep toLowerCase (searchTextOf toLowerCase entityName observations))
        (TelosCategory.CONTEXT, 0)).1 := by
  rfl

theorem bestMatch_keep (toLowerCase : String → String) (text : String)
    (l : List (TelosCategory × List String)) :
    ∀ b : TelosCategory × Nat, (∀ e ∈ l, keywordScore toLowerCase text e.2 ≤ b.2) →
      l.foldl (bestMatchStep toLowerCase text) b = b := by
  induction l with
  | nil => intro b _; rfl
  | cons e rest ih =>
    intro b h
    have he := h e (List.mem_cons_self _ _)
    rw [List.foldl_cons]
    have hstep : bestMatchStep toLowerCase text b e = b := by
      unfold bestMatchStep
      rw [if_neg (by omega)]
    rw [hstep]
    exact ih b (fun x hx => h x (List.mem_cons_of_mem _ hx))

theorem bestMatch_first_max (toLowerCase : String → String) (text : String)
    (l : List (TelosCategory × List String)) :
    ∀ b : TelosCategory × Nat, (∃ e ∈ l, b.2 < keywordScore toLowerCase text e.2) →
      ∃ pre x post, l = pre ++ x :: post ∧
        (∀ e ∈ pre, keywordScore toLowerCase text e.2 < keywordScore toLowerCase text x.2) ∧
        (∀ e ∈ post, keywordScore toLowerCase text e.2 ≤ keywordScore toLowerCase text x.2) ∧
        b.2 < keywordScore toLowerCase text x.2 ∧
        l.foldl (bestMatchStep toLowerCase text) b =
          (x.1, keywordScore toLowerCase text x.2) := by
  induction l with
  | nil => intro b h; simp at h
  | cons e rest ih =>
    intro b h
    rw [List.foldl_cons]
    by_cases he : b.2 < keywordScore toLowerCase text e.2
    · have hstep : bestMatchStep toLowerCase text b e =
          (e.1, keywordScore toLowerCase text e.2) := by
        unfold bestMatchStep
        rw [if_pos he]
      rw [hstep]
      by_cases hrest : ∃ x ∈ rest,
          keywordScore toLowerCase text e.2 < keywordScore toLowerCase text x.2
      · obtain ⟨pre, x, post, hl, hpre, hpost, hb, hres⟩ :=
          ih (e.1, keywordScore toLowerCase text e.2) hrest
        refine ⟨e :: pre, x, post, by simp [hl], ?_, hpost, by simp at hb; omega, hres⟩
        intro y hy
        rcases List.mem_cons.mp hy with rfl | hy
        · simpa using hb
        · exact hpre y hy
      · simp only [not_exists, not_and, not_lt] at hrest
        refine ⟨[], e, rest, rfl, by simp, hrest, he, ?_⟩
        exact bestMatch_keep toLowerCase text rest _ hrest
    · have hstep : bestMatchStep toLowerCase text b e = b := by
        unfold bestMatchStep
        rw [if_neg he]
      rw [hstep]
      have hrest : ∃ x ∈ rest, b.2 < keywordScore toLowerCase text x.2 := by
        obtain ⟨x, hx, hlt⟩ := h
        rcases List.mem_cons.mp hx with rfl | hx
        · exact absurd hlt he
        · exact ⟨x, hx, hlt⟩
      obtain ⟨pre, x, post, hl, hpre, hpost, hb, hres⟩ := ih b hrest
      refine ⟨e :: pre, x, post, by simp [hl], ?_, hpost, hb, hres⟩
      intro y hy
      rcases List.mem_cons.mp hy with rfl | hy
      · omega
      · exact hpre y hy

theorem keywords_ascii :
    ∀ entry ∈ CATEGORY_KEYWORDS, ∀ k ∈ entry.2, ∀ c ∈ k.data, c.toNat < 128 := by
  decide

theorem keywords_lowercase :
    ∀ entry ∈ CATEGORY_KEYWORDS, ∀ k ∈ entry.2, sampleToLowerCase k = k := by
  decide

theorem keywords_fixed (toLowerCase : String → String)
    (hascii : ∀ s : String, (∀ c ∈ s.data, c.toNat < 128) →
      toLowerCase s = sampleToLowerCase s) :
    ∀ entry ∈ CATEGORY_KEYWORDS, ∀ k ∈ entry.2, toLowerCase k = k := by
  intro entry hentry k hk
  rw [hascii k (keywords_ascii entry hentry k hk)]
  exact keywords_lowercase entry hentry k hk

theorem intercalate_go_data (s : String) (l : List String) :
    ∀ acc : String, (String.intercalate.go acc s l).data =
      acc.data ++ (l.map (fun a => s.data ++ a.data)).flatten := by
  induction l with
  | nil => intro acc; simp [String.intercalate.go]
  | cons a rest ih =>
    intro acc
    rw [String.intercalate.go, ih]
    simp [String.data_append, List.append_assoc]

theorem intercalate_append_self_data (s : String) (a : String) (rest : List String) :
    (s.intercalate ((a :: rest) ++ (a :: rest))).data =
      (s.intercalate (a :: rest)).data ++ s.data ++ (s.intercalate (a :: rest)).data := by
  simp only [List.cons_append, String.intercalate, intercalate_go_data, List.map_append,
    List.map_cons, List.flatten_append, List.flatten_cons, List.append_assoc]

theorem intercalate_append_self (s : String) (a : String) (rest : List String) :
    s.intercalate ((a :: rest) ++ (a :: rest)) =
      s.intercalate (a :: rest) ++ s ++ s.intercalate (a :: rest) := by
  apply String.ext
  rw [intercalate_append_self_data, String.data_append, String.data_append]

theorem prefix_before_separator (sp : Char) (k : List Char) (hk : sp ∉ k) (B : List Char) :
    ∀ A : List Char, k <+: A ++ sp :: B → k <+: A := by
  induction k with
  | nil => intro A _; exact List.nil_prefix
  | cons c k ih =>
    intro A h
    rw [List.mem_cons, not_or] at hk
    cases A with
    | nil =>
      rw [List.nil_append, List.prefix_cons_iff] at h
      rcases h with h | ⟨t, ht, _⟩
      · cases h
      · simp only [List.cons.injEq] at ht
        exact absurd ht.1.symm hk.1
    | cons a A =>
      rw [List.cons_append, List.prefix_cons_iff] at h
      rcases h with h | ⟨t, ht, hp⟩
      · cases h
      · simp only [List.cons.injEq] at ht
        obtain ⟨rfl, rfl⟩ := ht
        rw [List.prefix_cons_iff]
        exact Or.inr ⟨_, rfl, ih hk.2 A hp⟩

theorem infix_across_separator (sp : Char) (k : List Char) (hk : sp ∉ k) (B : List Char) :
    ∀ A : List Char, k <:+: A ++ sp :: B → k <:+: A ∨ k <:+: B := by
  intro A
  induction A with
  | nil =>
    intro h
    rw [List.nil_append, List.infix_cons_iff] at h
    rcases h with h | h
    · exact Or.inl (prefix_before_separator sp k hk B [] h).isInfix
    · exact Or.inr h
  | cons a A ih =>
    intro h
    rw [List.cons_append, List.infix_cons_iff] at h
    rcases h with h | h
    · exact Or.inl (prefix_before_separator sp k hk B (a :: A) h).isInfix
    · rcases ih h with h2 | h2
      · exact Or.inl (List.infix_cons h2)
      · exact Or.inr h2

theorem keywords_without_space :
    ∀ entry ∈ CATEGORY_KEYWORDS, ∀ k ∈ entry.2, ' ' ∉ k.data := by
  decide

theorem bestMatch_congr (lower1 lower2 : String → String) (text1 text2 : String)
    (l : List (TelosCategory × List String))
    (h : ∀ e ∈ l, keywordScore lower2 text2 e.2 = keywordScore lower1 text1 e.2) :
    ∀ b : TelosCategory × Nat,
      l.foldl (bestMatchStep lower2 text2) b = l.foldl (bestMatchStep lower1 text1) b := by
  induction l with
  | nil => intro b; rfl
  | cons e rest ih =>
    intro b
    rw [List.foldl_cons, List.foldl_cons]
    have hstep : bestMatchStep lower2 text2 b e = bestMatchStep lower1 text1 b e := by
      unfold bestMatchStep
      rw [h e (List.mem_cons_self _ _)]
    rw [hstep]
    exact ih (fun x hx => h x (List.mem_cons_of_mem _ hx)) _

theorem keywordScore_congr (lower1 lower2 : String → String) (text1 text2 : String)
    (keywords : List String)
    (h : ∀ k ∈ keywords, includes text2 (lower2 k) = includes text1 (lower1 k)) :
    keywordScore lower2 text2 keywords = keywordScore lower1 text1 keywords := by
  rw [keywordScore_eq, keywordScore_eq]
  congr 1
  apply List.filter_congr
  intro k hk
  exact h k hk

theorem detectTelosCategory_ascii (toLowerCase : String → String)
    (hascii : ∀ s : String, (∀ c ∈ s.data, c.toNat < 128) →
      toLowerCase s = sampleToLowerCase s)
    (entityName : String) (observations : List String)
    (h : ∀ c ∈ (entityName ++ " " ++ " ".intercalate observations).data, c.toNat < 128) :
    detectTelosCategory toLowerCase entityName observations =
      detectTelosCategory sampleToLowerCase entityName observations := by
  have htext : searchTextOf toLowerCase entityName observations =
      searchTextOf sampleToLowerCase entityName observations := hascii _ h
  rw [detectTelosCategory_eq, detectTelosCategory_eq, htext]
  congr 1
  apply bestMatch_congr
  intro e he
  apply keywordScore_congr
  intro k hk
  rw [keywords_fixed toLowerCase hascii e he k hk, keywords_lowercase e he k hk]

theorem searchTextOf_data (toLowerCase : String → String)
    (hspace : ∀ x y : String,
      toLowerCase (x ++ " " ++ y) = toLowerCase x ++ " " ++ toLowerCase y)
    (entityName : String) (observations : List String) :
    (searchTextOf toLowerCase entityName observations).data =
      (toLowerCase entityName).data ++
        ' ' :: (toLowerCase (" ".intercalate observations)).data := by
  have hsp : (" " : String).data = [' '] := rfl
  simp only [searchTextOf, hspace, String.data_append, hsp, List.append_assoc,
    List.singleton_append]

theorem searchTextOf_repeat_data (toLowerCase : String → String)
    (hspace : ∀ x y : String,
      toLowerCase (x ++ " " ++ y) = toLowerCase x ++ " " ++ toLowerCase y)
    (entityName a : String) (rest : List String) :
    (searchTextOf toLowerCase entityName ((a :: rest) ++ (a :: rest))).data =
      (searchTextOf toLowerCase entityName (a :: rest)).data ++
        ' ' :: (toLowerCase (" ".intercalate (a :: rest))).data := by
  have hsp : (" " : String).data = [' '] := rfl
  have htext : entityName ++ " " ++ " ".intercalate ((a :: rest) ++ (a :: rest)) =
      (entityName ++ " " ++ " ".intercalate (a :: rest)) ++ " " ++
        " ".intercalate (a :: rest) := by
    rw [intercalate_append_self]
    simp only [String.append_assoc]
  show (toLowerCase (entityName ++ " " ++ " ".intercalate ((a :: rest) ++ (a :: rest)))).data =
    (toLowerCase (entityName ++ " " ++ " ".intercalate (a :: rest))).data ++ _
  rw [htext, hspace (entityName ++ " " ++ " ".intercalate (a :: rest))]
  simp only [String.data_append, hsp, List.append_assoc, List.singleton_append]

theorem includes_repeat (toLowerCase : String → String)
    (hspace : ∀ x y : String,
      toLowerCase (x ++ " " ++ y) = toLowerCase x ++ " " ++ toLowerCase y)
    (entityName a : String) (rest : List String) (k : String) (hk : ' ' ∉ k.data) :
    includes (searchTextOf toLowerCase entityName ((a :: rest) ++ (a :: rest))) k =
      includes (searchTextOf toLowerCase entityName (a :: rest)) k := by
  rw [Bool.eq_iff_iff, includes_iff, includes_iff, searchTextOf_repeat_data toLowerCase hspace]
  constructor
  · intro h
    rcases infix_across_separator ' ' k.data hk _ _ h with h1 | h2
    · exact h1
    · rw [searchTextOf_data toLowerCase hspace]
      refine h2.trans ?_
      exact ⟨(toLowerCase entityName).data ++ [' '], [], by simp⟩
  · intro h
    exact h.trans (List.prefix_append _ _).isInfix

theorem sampleToLowerCase_space (x y : String) :
    sampleToLowerCase (x ++ " " ++ y) =
      sampleToLowerCase x ++ " " ++ sampleToLowerCase y := by
  apply String.ext
  have hsp : List.map Char.toLower (" " : String).data = (" " : String).data := by decide
  simp only [sampleToLowerCase, String.data_append, List.map_append, hsp]

/-! ## Auxiliary facts about the bounded path search -/

theorem foldlM_some (f : SearchState → Relation → Option SearchState)
    (f2 : SearchState → Relation → SearchState) (hf : ∀ st r, f st r = some (f2 st r))
    (rs : List Relation) :
    ∀ st : SearchState, rs.foldlM f st = some (rs.foldl f2 st) := by
  induction rs with
  | nil => intro st; rfl
  | cons r rest ih =>
    intro st
    rw [List.foldlM_cons, hf, List.foldl_cons]
    exact ih _

theorem findPathsBounded_eq (g : KnowledgeGraph) (maxDepth : Nat) (target : String)
    (limit : Nat) :
    ∀ (current : String) (cp cr : List String) (depth : Nat) (state : SearchState),
      depth ≤ maxDepth + 1 → maxDepth + 2 ≤ limit + depth →
      findPathsBounded g maxDepth target limit current cp cr depth state =
        some (findPaths g maxDepth target limit current cp cr depth state) := by
  induction limit with
  | zero => intro current cp cr depth state h1 h2; omega
  | succ limit ih =>
    intro current cp cr depth state h1 h2
    unfold findPathsBounded findPaths
    split_ifs with hd he hv
    · rfl
    · rfl
    · rfl
    · simp only []
      rw [foldlM_some _
        (fun st relation => findPaths g maxDepth target limit relation.to_
          (cp ++ [relation.to_]) (cr ++ [relation.relationType]) (depth + 1) st)
        (fun st r => ih _ _ _ _ st (by omega) (by omega))]

/-! ## Auxiliary facts about the store at run time

On a graph whose stored categories are members of `TelosCategory`, the definitions
with categories as strings compute what the definitions over `TelosCategory` do. -/

theorem orElse_value (c : Option TelosCategory) :
    orElse (c.map TelosCategory.value) TelosCategory.CONTEXT.value =
      (c.getD TelosCategory.CONTEXT).value := by
  cases c with
  | none => rfl
  | some c => cases c <;> rfl

theorem orElse_some_value (c : TelosCategory) (fallback : String) :
    orElse (some c.value) fallback = c.value := by
  cases c <;> rfl

theorem matrixRow_value (c : TelosCategory) :
    matrixRow c.value = some (RELATIONSHIP_MATRIX c) := by
  cases c <;> rfl

theorem getDefaultRelationshipUntyped_value (f t : TelosCategory) :
    getDefaultRelationshipUntyped f.value t.value = getDefaultRelationship f t := by
  cases f <;> cases t <;> rfl

theorem validateRelationshipUntyped_value (f t : TelosCategory) (r : RelationshipType) :
    validateRelationshipUntyped f.value t.value r = .ok (validateRelationship f t r) := by
  cases f <;> cases t <;> cases r <;> rfl

theorem find?_toUntyped (es : List Entity) (name : String) :
    (es.map Entity.toUntyped).find? (fun e => e.name == name) =
      (es.find? (fun e => e.name == name)).map Entity.toUntyped := by
  induction es with
  | nil => rfl
  | cons e rest ih =>
    simp only [List.map_cons, List.find?_cons]
    have hname : (Entity.toUntyped e).name = e.name := rfl
    rw [hname]
    cases h : (e.name == name) with
    | true => rfl
    | false => exact ih

theorem any_sameTriple_toUntyped (rs : List Relation) (r : Relation) :
    (rs.map Relation.toUntyped).any
        (fun existingRelation => sameTripleUntyped existingRelation r.toUntyped) =
      rs.any (fun existingRelation => sameTriple existingRelation r) := by
  induction rs with
  | nil => rfl
  | cons x rest ih =>
    simp only [List.map_cons, List.any_cons, ih]
    rfl

theorem createRelationsStepUntyped_typed (g : KnowledgeGraph) (r : Relation) :
    createRelationsStepUntyped g.toUntyped r.toUntyped =
      .ok ((createRelationsStep g r).1.map Relation.toUntyped, (createRelationsStep g r).2) := by
  unfold createRelationsStepUntyped createRelationsStep
  have hfrom : r.toUntyped.from_ = r.from_ := rfl
  have hto : r.toUntyped.to_ = r.to_ := rfl
  have htype : r.toUntyped.relationType = r.relationType := rfl
  have hrels : g.toUntyped.relations = g.relations.map Relation.toUntyped := rfl
  have hents : g.toUntyped.entities = g.entities.map Entity.toUntyped := rfl
  simp only [hrels, hents, any_sameTriple_toUntyped, hfrom, hto, htype, find?_toUntyped]
  cases hex : g.relations.any (fun existingRelation => sameTriple existingRelation r) with
  | true => rfl
  | false =>
    simp only [Bool.false_eq_true, if_false]
    cases hf : g.entities.find? (fun e => e.name == r.from_) with
    | none => rfl
    | some fromEntity =>
      cases ht : g.entities.find? (fun e => e.name == r.to_) with
      | none => rfl
      | some toEntity =>
        simp only [Option.map_some']
        have h1 : (Entity.toUntyped fromEntity).telosCategory =
            fromEntity.telosCategory.map TelosCategory.value := rfl
        have h2 : (Entity.toUntyped toEntity).telosCategory =
            toEntity.telosCategory.map TelosCategory.value := rfl
        simp only [h1, h2, orElse_value, validateRelationshipUntyped_value,
          getDefaultRelationshipUntyped_value]
        cases hof : RelationshipType.ofValue? r.relationType with
        | none => rfl
        | some t =>
          simp only []
          cases hv : (validateRelationship (fromEntity.telosCategory.getD .CONTEXT)
              (toEntity.telosCategory.getD .CONTEXT) t).isValid with
          | true => simp [hv]; rfl
          | false => simp [hv]; rfl

theorem createRelationsLoopUntyped_typed (g : KnowledgeGraph) (rs : List Relation) :
    ∀ acc : List Relation × List String,
      createRelationsLoopUntyped g.toUntyped (rs.map Relation.toUntyped)
          (acc.1.map Relation.toUntyped, acc.2) =
        .ok ((acc.1 ++ (rs.map (fun r => (createRelationsStep g r).1)).flatten).map
              Relation.toUntyped,
             acc.2 ++ (rs.map (fun r => (createRelationsStep g r).2)).flatten) := by
  induction rs with
  | nil => intro acc; simp [createRelationsLoopUntyped]
  | cons r rest ih =>
    intro acc
    simp only [List.map_cons, createRelationsLoopUntyped, createRelationsStepUntyped_typed]
    have h := ih (acc.1 ++ (createRelationsStep g r).1, acc.2 ++ (createRelationsStep g r).2)
    simp only [List.map_append] at h
    simp only [h, List.flatten_cons, List.map_append, List.append_assoc]

theorem createRelations_errors (g : KnowledgeGraph) (rs : List Relation) :
    (createRelations g rs).validationErrors =
      (rs.map (fun r => (createRelationsStep g r).2)).flatten := by
  unfold createRelations
  simp only []
  rw [createRelations_foldl]
  simp

theorem createRelationsUntyped_typed (g : KnowledgeGraph) (rs : List Relation) :
    createRelationsUntyped g.toUntyped (rs.map Relation.toUntyped) =
      .ok { graph := (createRelations g rs).graph.toUntyped
            validatedRelations := (createRelations g rs).validatedRelations.map Relation.toUntyped
            validationErrors := (createRelations g rs).validationErrors } := by
  unfold createRelationsUntyped
  have h := createRelationsLoopUntyped_typed g rs ([], [])
  simp only [List.map_nil, List.nil_append] at h
  rw [h, createRelations_graph, createRelations_validated, createRelations_errors]
  simp only [KnowledgeGraph.toUntyped, List.map_append]

theorem createEntitiesUntyped_typed (toLowerCase : String → String) (g : KnowledgeGraph)
    (es : List Entity) :
    createEntitiesUntyped toLowerCase g.toUntyped (es.map Entity.toUntyped) =
      ((createEntities toLowerCase g es).1.toUntyped,
       (createEntities toLowerCase g es).2.map Entity.toUntyped) := by
  have hany : ∀ e : Entity,
      (g.entities.map Entity.toUntyped).any
          (fun existingEntity => existingEntity.name == (Entity.toUntyped e).name) =
        g.entities.any (fun existingEntity => existingEntity.name == e.name) := by
    intro e
    induction g.entities with
    | nil => rfl
    | cons x rest ih =>
      simp only [List.map_cons, List.any_cons, ih]
      rfl
  have hcat : ∀ e : Entity,
      orElse (Entity.toUntyped e).telosCategory
          (detectTelosCategory toLowerCase (Entity.toUntyped e).name
            (Entity.toUntyped e).observations).value =
        (match e.telosCategory with
          | some category => category
          | none => detectTelosCategory toLowerCase e.name e.observations).value := by
    intro e
    cases hc : e.telosCategory with
    | none => simp [Entity.toUntyped, hc, orElse]
    | some c => simp only [Entity.toUntyped, hc, Option.map_some', orElse_some_value]
  have hlist : ((es.map Entity.toUntyped).filter
        (fun e => !(g.entities.map Entity.toUntyped).any
          (fun existingEntity => existingEntity.name == e.name))).map
        (fun entity => { entity with telosCategory := some (orElse entity.telosCategory
          (detectTelosCategory toLowerCase entity.name entity.observations).value) }) =
      (createEntities toLowerCase g es).2.map Entity.toUntyped := by
    simp only [createEntities, List.filter_map, List.map_map]
    have hfilter : es.filter ((fun e => !(g.entities.map Entity.toUntyped).any
          (fun existingEntity => existingEntity.name == e.name)) ∘ Entity.toUntyped) =
        es.filter (fun e => !g.entities.any
          (fun existingEntity => existingEntity.name == e.name)) := by
      apply List.filter_congr
      intro e _
      simp only [Function.comp, hany]
    rw [hfilter]
    apply List.map_congr_left
    intro e _
    simp only [Function.comp, hcat]
    cases hc : e.telosCategory <;> rfl
  unfold createEntitiesUntyped
  simp only [KnowledgeGraph.toUntyped, hlist]
  simp only [createEntities, List.map_append]

/-- Where every stored category is a member of `TelosCategory`, `createRelations`
does not throw, whatever the strings given as `relationType`: every relation it
returns has one of the 7 canonical types, the relations it stores are the returned
ones appended to those of the graph, and the entities are unchanged. -/
theorem createRelationsUntyped_types_canonical (g : KnowledgeGraph)
    (relations : List Relation) :
    ∃ result, createRelationsUntyped g.toUntyped (relations.map Relation.toUntyped) =
        .ok result ∧
      (∀ r ∈ result.validatedRelations, isValidRelationshipType r.relationType = true) ∧
      result.graph.relations = g.toUntyped.relations ++ result.validatedRelations ∧
      result.graph.entities = g.toUntyped.entities := by
  refine ⟨_, createRelationsUntyped_typed g relations, ?_, ?_, rfl⟩
  · intro r hr
    simp only [List.mem_map] at hr
    obtain ⟨x, hx, rfl⟩ := hr
    obtain ⟨r0, _, hstep⟩ := createRelations_validated_mem g relations x hx
    exact createRelationsStep_type g r0 x hstep
  · simp only [createRelations_graph, KnowledgeGraph.toUntyped, List.map_append]

/-- On a graph whose stored categories are members of `TelosCategory`, an input of
`createRelations` with an unknown type, found endpoints and a triple that is not
stored is returned and stored with the type `getDefaultRelationship` of the endpoint
categories (`Context` for an endpoint without category). -/
theorem createRelations_unknown_type_replaced (g : KnowledgeGraph) (relations : List Relation)
    (r : Relation) (fromEntity toEntity : Entity) (hr : r ∈ relations)
    (hfrom : g.entities.find? (fun e => e.name == r.from_) = some fromEntity)
    (hto : g.entities.find? (fun e => e.name == r.to_) = some toEntity)
    (hnew : g.relations.any (fun existingRelation => sameTriple existingRelation r) = false)
    (hunknown : isValidRelationshipType r.relationType = false) :
    ({ from_ := r.from_, to_ := r.to_,
       relationType := (getDefaultRelationship (fromEntity.telosCategory.getD .CONTEXT)
         (toEntity.telosCategory.getD .CONTEXT)).value,
       fromCategory := some (fromEntity.telosCategory.getD .CONTEXT),
       toCategory := some (toEntity.telosCategory.getD .CONTEXT) } : Relation) ∈
        (createRelations g relations).validatedRelations ∧
    ({ from_ := r.from_, to_ := r.to_,
       relationType := (getDefaultRelationship (fromEntity.telosCategory.getD .CONTEXT)
         (toEntity.telosCategory.getD .CONTEXT)).value,
       fromCategory := some (fromEntity.telosCategory.getD .CONTEXT),
       toCategory := some (toEntity.telosCategory.getD .CONTEXT) } : Relation) ∈
        (createRelations g relations).graph.relations := by
  rw [isValidRelationshipType_eq] at hunknown
  have hof : RelationshipType.ofValue? r.relationType = none := by
    cases h : RelationshipType.ofValue? r.relationType with
    | none => rfl
    | some t => rw [h] at hunknown; cases hunknown
  have hstep : (createRelationsStep g r).1 =
      [{ from_ := r.from_, to_ := r.to_,
         relationType := (getDefaultRelationship (fromEntity.telosCategory.getD .CONTEXT)
           (toEntity.telosCategory.getD .CONTEXT)).value,
         fromCategory := some (fromEntity.telosCategory.getD .CONTEXT),
         toCategory := some (toEntity.telosCategory.getD .CONTEXT) }] := by
    unfold createRelationsStep
    simp only [hnew, hfrom, hto, hof, Bool.false_eq_true, if_false]
  have hmem : ∀ x ∈ (createRelationsStep g r).1,
      x ∈ (createRelations g relations).validatedRelations := by
    intro x hx
    rw [createRelations_validated]
    simp only [List.mem_flatten, List.mem_map]
    exact ⟨_, ⟨r, hr, rfl⟩, hx⟩
  rw [hstep] at hmem
  have hin := hmem _ (List.mem_singleton.mpr rfl)
  refine ⟨hin, ?_⟩
  rw [createRelations_graph]
  exact List.mem_append_right _ hin

/-! ## Properties of the relationship validator -/

/-- C1: for every source category `C` and every target category, `threatens` is
valid exactly when `C` is `Risks`, and `mentors` is valid exactly when `C` is
`Relationships`. -/
theorem validateRelationship_exclusive_types (C toCategory : TelosCategory) :
    ((validateRelationship C toCategory .THREATENS).isValid = true ↔ C = .RISKS) ∧
    ((validateRelationship C toCategory .MENTORS).isValid = true ↔ C = .RELATIONSHIPS) := by
  cases C <;> cases toCategory <;> decide

/-- C2: `validateRelationship F T R` is valid if and only if `R` is in the matrix row
of `F`, `mentors` is used only from `Relationships` and `threatens` only from `Risks`;
a valid result echoes `R` as `suggestedType`, has no `errorMessage`, and its
`allowedTypes` is the matrix row of `F`. -/
theorem validateRelationship_isValid_iff (F T : TelosCategory) (R : RelationshipType) :
    ((validateRelationship F T R).isValid = true ↔
      (R ∈ RELATIONSHIP_MATRIX F ∧ (R = .MENTORS → F = .RELATIONSHIPS) ∧
        (R = .THREATENS → F = .RISKS))) ∧
    ((validateRelationship F T R).isValid = true →
      (validateRelationship F T R).suggestedType = some R ∧
      (validateRelationship F T R).errorMessage = none ∧
      (validateRelationship F T R).allowedTypes = RELATIONSHIP_MATRIX F) := by
  cases F <;> cases T <;> cases R <;> decide

/-- C3: at `(Risks, Identity)` the default type is the fallback `supports`, which is
not in the matrix row of `Risks`; `getSuggestedRelationships` then returns five types
while the row has four. -/
theorem getSuggestedRelationships_risks_identity :
    getDefaultRelationship .RISKS .IDENTITY = .SUPPORTS ∧
    RELATIONSHIP_MATRIX .RISKS = [.MENTORS, .INFORMS, .REFLECTS_ON, .THREATENS] ∧
    getSuggestedRelationships .RISKS .IDENTITY =
      [.SUPPORTS, .MENTORS, .INFORMS, .REFLECTS_ON, .THREATENS] ∧
    (getSuggestedRelationships .RISKS .IDENTITY).length ≠
      (RELATIONSHIP_MATRIX .RISKS).length := by
  decide

/-! ## Properties of the graph store -/

/-- C4 (as stated, refuted): with `M` in `Memory`, `P` in `Projects` and no relations,
`createRelations([(M, P, threatens)])` does not return a relation of type `informs`. -/
theorem createRelations_memory_projects_not_informs :
    ¬ ((createRelations
          ⟨[⟨"M", "note", some .MEMORY, []⟩, ⟨"P", "note", some .PROJECTS, []⟩], []⟩
          [⟨"M", "P", "threatens", none, none⟩]).validatedRelations.length = 1 ∧
        ∀ r ∈ (createRelations
          ⟨[⟨"M", "note", some .MEMORY, []⟩, ⟨"P", "note", some .PROJECTS, []⟩], []⟩
          [⟨"M", "P", "threatens", none, none⟩]).validatedRelations,
          r.relationType = "informs" ∧ r.fromCategory = some .MEMORY ∧
            r.toCategory = some .PROJECTS) := by
  decide

/-- C4 (amended): with `M` in `Memory`, `P` in `Projects` and no relations,
`createRelations([(M, P, threatens)])` adds and returns exactly one relation, of type
`supports` (the fallback default for the pair), with `fromCategory` `Memory` and
`toCategory` `Projects`; the entities are unchanged and one warning is logged. -/
theorem createRelations_memory_projects_threatens (typeM typeP : String)
    (obsM obsP : List String) :
    (createRelations
        ⟨[⟨"M", typeM, some .MEMORY, obsM⟩, ⟨"P", typeP, some .PROJECTS, obsP⟩], []⟩
        [⟨"M", "P", "threatens", none, none⟩]).validatedRelations =
      [⟨"M", "P", "supports", some .MEMORY, some .PROJECTS⟩] ∧
    (createRelations
        ⟨[⟨"M", typeM, some .MEMORY, obsM⟩, ⟨"P", typeP, some .PROJECTS, obsP⟩], []⟩
        [⟨"M", "P", "threatens", none, none⟩]).graph =
      ⟨[⟨"M", typeM, some .MEMORY, obsM⟩, ⟨"P", typeP, some .PROJECTS, obsP⟩],
       [⟨"M", "P", "supports", some .MEMORY, some .PROJECTS⟩]⟩ ∧
    (createRelations
        ⟨[⟨"M", typeM, some .MEMORY, obsM⟩, ⟨"P", typeP, some .PROJECTS, obsP⟩], []⟩
        [⟨"M", "P", "threatens", none, none⟩]).validationErrors.length = 1 := by
  refine ⟨rfl, rfl, rfl⟩

/-- C5: two failing inputs. A batch that repeats a new triple stores it twice, and a
relation whose type is auto-corrected to the type of a stored relation between the
same entities is stored next to it. -/
theorem createRelations_breaks_triple_uniqueness :
    (TripleUnique ⟨[⟨"A", "note", some .CONTEXT, []⟩, ⟨"B", "note", some .CONTEXT, []⟩], []⟩ ∧
      (createRelations
        ⟨[⟨"A", "note", some .CONTEXT, []⟩, ⟨"B", "note", some .CONTEXT, []⟩], []⟩
        [⟨"A", "B", "supports", none, none⟩, ⟨"A", "B", "supports", none, none⟩]).graph.relations
        = [⟨"A", "B", "supports", some .CONTEXT, some .CONTEXT⟩,
           ⟨"A", "B", "supports", some .CONTEXT, some .CONTEXT⟩] ∧
      ¬ TripleUnique (createRelations
        ⟨[⟨"A", "note", some .CONTEXT, []⟩, ⟨"B", "note", some .CONTEXT, []⟩], []⟩
        [⟨"A", "B", "supports", none, none⟩, ⟨"A", "B", "supports", none, none⟩]).graph) ∧
    (TripleUnique ⟨[⟨"A", "note", some .CONTEXT, []⟩, ⟨"B", "note", some .CONTEXT, []⟩],
        [⟨"A", "B", "supports", some .CONTEXT, some .CONTEXT⟩]⟩ ∧
      ¬ TripleUnique (createRelations
        ⟨[⟨"A", "note", some .CONTEXT, []⟩, ⟨"B", "note", some .CONTEXT, []⟩],
          [⟨"A", "B", "supports", some .CONTEXT, some .CONTEXT⟩]⟩
        [⟨"A", "B", "threatens", none, none⟩]).graph) := by
  decide

/-- C6: a failing input. On the empty graph, a batch with two entities named `A`
stores both, whatever `toLowerCase` does in the category detection. -/
theorem createEntities_breaks_name_uniqueness (toLowerCase : String → String) :
    NameUnique ⟨[], []⟩ ∧
    (createEntities toLowerCase ⟨[], []⟩
      [⟨"A", "note", none, []⟩, ⟨"A", "note", none, []⟩]).1.entityNames = ["A", "A"] ∧
    ¬ NameUnique (createEntities toLowerCase ⟨[], []⟩
      [⟨"A", "note", none, []⟩, ⟨"A", "note", none, []⟩]).1 := by
  have hnames : (createEntities toLowerCase ⟨[], []⟩
      [⟨"A", "note", none, []⟩, ⟨"A", "note", none, []⟩]).1.entityNames = ["A", "A"] := rfl
  refine ⟨by decide, hnames, ?_⟩
  unfold NameUnique
  rw [hnames]
  decide

/-- C10: a failing input. The triple `(M, P, supports)` is stored once; the call
`createRelations([(M, P, supports), (M, P, threatens)])` skips the first relation,
auto-corrects the second to `supports`, and the triple is then stored twice. -/
theorem createRelations_stored_triple_duplicated :
    tripleCount
      ⟨[⟨"M", "note", some .MEMORY, []⟩, ⟨"P", "note", some .PROJECTS, []⟩],
        [⟨"M", "P", "supports", some .MEMORY, some .PROJECTS⟩]⟩
      ⟨"M", "P", "supports", none, none⟩ = 1 ∧
    (createRelations
      ⟨[⟨"M", "note", some .MEMORY, []⟩, ⟨"P", "note", some .PROJECTS, []⟩],
        [⟨"M", "P", "supports", some .MEMORY, some .PROJECTS⟩]⟩
      [⟨"M", "P", "supports", none, none⟩, ⟨"M", "P", "threatens", none, none⟩]).validatedRelations
      = [⟨"M", "P", "supports", some .MEMORY, some .PROJECTS⟩] ∧
    tripleCount
      (createRelations
        ⟨[⟨"M", "note", some .MEMORY, []⟩, ⟨"P", "note", some .PROJECTS, []⟩],
          [⟨"M", "P", "supports", some .MEMORY, some .PROJECTS⟩]⟩
        [⟨"M", "P", "supports", none, none⟩, ⟨"M", "P", "threatens", none, none⟩]).graph
      ⟨"M", "P", "supports", none, none⟩ = 2 := by
  decide

/-- C7: referential integrity is preserved by every mutating operation of the store
(`createEntities`, `createRelations`, `addObservations`, `deleteEntities`,
`deleteObservations`, `deleteRelations`), for every argument; and `createRelations`
only ever adds relations whose two endpoints are names of entities of the graph. -/
theorem referentialIntegrity_preserved (g : KnowledgeGraph) (h : ReferentialIntegrity g) :
    (∀ toLowerCase entities, ReferentialIntegrity (createEntities toLowerCase g entities).1) ∧
    (∀ relations, ReferentialIntegrity (createRelations g relations).graph) ∧
    (∀ observations, ReferentialIntegrity (addObservationsSaved g observations)) ∧
    (∀ entityNames, ReferentialIntegrity (deleteEntities g entityNames)) ∧
    (∀ deletions, ReferentialIntegrity (deleteObservations g deletions)) ∧
    (∀ relations, ReferentialIntegrity (deleteRelations g relations)) ∧
    (∀ relations, ∀ r ∈ (createRelations g relations).validatedRelations,
      r.from_ ∈ g.entityNames ∧ r.to_ ∈ g.entityNames) := by
  have hadded : ∀ relations, ∀ r ∈ (createRelations g relations).validatedRelations,
      r.from_ ∈ g.entityNames ∧ r.to_ ∈ g.entityNames := by
    intro relations r hr
    obtain ⟨r0, _, hstep⟩ := createRelations_validated_mem g relations r hr
    obtain ⟨h1, h2, h3, h4, _⟩ := createRelationsStep_mem g r0 r hstep
    rw [h1, h2]
    exact ⟨h3, h4⟩
  refine ⟨?_, ?_, ?_, ?_, ?_, ?_, hadded⟩
  · intro toLowerCase entities r hr
    have hr2 : r ∈ g.relations := hr
    obtain ⟨h1, h2⟩ := h r hr2
    simp only [createEntities, KnowledgeGraph.entityNames, List.map_append, List.mem_append]
    exact ⟨Or.inl h1, Or.inl h2⟩
  · intro relations r hr
    rw [createRelations_graph] at hr ⊢
    simp only [List.mem_append] at hr
    rcases hr with hr | hr
    · exact h r hr
    · exact hadded relations r hr
  · intro observations r hr
    obtain ⟨h1, h2⟩ := addObservationsSaved_frame g observations
    rw [h2] at hr
    rw [h1]
    exact h r hr
  · intro entityNames r hr
    simp only [deleteEntities, List.mem_filter, Bool.and_eq_true, Bool.not_eq_true_eq_eq_false,
      Bool.not_eq_eq_eq_not, Bool.not_true] at hr
    obtain ⟨hr1, hr2, hr3⟩ := hr
    obtain ⟨h1, h2⟩ := h r hr1
    simp only [KnowledgeGraph.entityNames, List.mem_map] at h1 h2
    obtain ⟨e1, he1, hn1⟩ := h1
    obtain ⟨e2, he2, hn2⟩ := h2
    simp only [deleteEntities, KnowledgeGraph.entityNames, List.mem_map, List.mem_filter]
    refine ⟨⟨e1, ⟨he1, ?_⟩, hn1⟩, ⟨e2, ⟨he2, ?_⟩, hn2⟩⟩
    · rw [hn1]; simpa using hr2
    · rw [hn2]; simpa using hr3
  · intro deletions r hr
    obtain ⟨h1, h2⟩ := deleteObservations_frame deletions g
    rw [h2] at hr
    rw [h1]
    exact h r hr
  · intro relations r hr
    simp only [deleteRelations, List.mem_filter] at hr
    exact h r hr.1

/-- C7, at a concrete graph: one relation between two stored entities; every
operation, also one that deletes an endpoint, keeps referential integrity. -/
theorem referentialIntegrity_preserved_witness :
    ReferentialIntegrity
      ⟨[⟨"A", "note", none, []⟩, ⟨"B", "note", none, []⟩],
       [⟨"A", "B", "supports", none, none⟩]⟩ ∧
    ReferentialIntegrity (deleteEntities
      ⟨[⟨"A", "note", none, []⟩, ⟨"B", "note", none, []⟩],
       [⟨"A", "B", "supports", none, none⟩]⟩ ["B"]) ∧
    ReferentialIntegrity (createRelations
      ⟨[⟨"A", "note", none, []⟩, ⟨"B", "note", none, []⟩],
       [⟨"A", "B", "supports", none, none⟩]⟩ [⟨"B", "C", "enables", none, none⟩]).graph :=
  ⟨by decide,
   (referentialIntegrity_preserved
      ⟨[⟨"A", "note", none, []⟩, ⟨"B", "note", none, []⟩],
       [⟨"A", "B", "supports", none, none⟩]⟩ (by decide)).2.2.2.1 ["B"],
   (referentialIntegrity_preserved
      ⟨[⟨"A", "note", none, []⟩, ⟨"B", "note", none, []⟩],
       [⟨"A", "B", "supports", none, none⟩]⟩ (by decide)).2.1
      [⟨"B", "C", "enables", none, none⟩]⟩

/-- C8: after `deleteEntities(names)` the entities are exactly the entities of the
graph whose name is not in `names`, and the relations are exactly the relations whose
`from` and `to` are both not in `names`; both keep their order and their content. -/
theorem deleteEntities_spec (g : KnowledgeGraph) (names : List String) :
    (deleteEntities g names).entities =
      g.entities.filter (fun e => decide (e.name ∉ names)) ∧
    (deleteEntities g names).relations =
      g.relations.filter (fun r => decide (r.from_ ∉ names ∧ r.to_ ∉ names)) ∧
    (∀ e, e ∈ (deleteEntities g names).entities ↔ e ∈ g.entities ∧ e.name ∉ names) ∧
    (∀ r, r ∈ (deleteEntities g names).relations ↔
      r ∈ g.relations ∧ r.from_ ∉ names ∧ r.to_ ∉ names) ∧
    (deleteEntities g names).entities.Sublist g.entities ∧
    (deleteEntities g names).relations.Sublist g.relations := by
  refine ⟨?_, ?_, ?_, ?_, ?_, ?_⟩
  · simp only [deleteEntities]
    apply List.filter_congr
    intro e _
    simp
  · simp only [deleteEntities]
    apply List.filter_congr
    intro r _
    simp
  · intro e
    simp [deleteEntities]
  · intro r
    simp [deleteEntities]
  · exact List.filter_sublist _
  · exact List.filter_sublist _

/-- C9: `createEntities` is first-write-wins. The stored entities afterwards are the
entities of the graph, unmodified and in place, followed by the returned ones; no
returned entity bears a name that was already in the graph; relations are untouched;
and a second call with the same list, right after the first, returns the empty list
and leaves the stored graph unchanged. -/
theorem createEntities_first_write_wins (toLowerCase : String → String) (g : KnowledgeGraph)
    (es : List Entity) :
    (createEntities toLowerCase g es).1.entities =
      g.entities ++ (createEntities toLowerCase g es).2 ∧
    (createEntities toLowerCase g es).1.relations = g.relations ∧
    (∀ x ∈ (createEntities toLowerCase g es).2, x.name ∉ g.entityNames) ∧
    (∀ e ∈ es, e.name ∈ g.entityNames → e ∉ (createEntities toLowerCase g es).2) ∧
    createEntities toLowerCase (createEntities toLowerCase g es).1 es =
      ((createEntities toLowerCase g es).1, []) := by
  have hret : ∀ x ∈ (createEntities toLowerCase g es).2, x.name ∉ g.entityNames := by
    intro x hx
    simp only [createEntities, List.mem_map, List.mem_filter] at hx
    obtain ⟨e, ⟨_, hnew⟩, rfl⟩ := hx
    simpa [KnowledgeGraph.entityNames] using hnew
  refine ⟨rfl, rfl, hret, ?_, ?_⟩
  · intro e _ hname hmem
    exact hret e hmem hname
  · have hany : ∀ e ∈ es, (createEntities toLowerCase g es).1.entities.any
        (fun existingEntity => existingEntity.name == e.name) = true := by
      intro e he
      rw [List.any_eq_true]
      by_cases hold : g.entities.any (fun existingEntity => existingEntity.name == e.name) = true
      · rw [List.any_eq_true] at hold
        obtain ⟨x, hx, hxe⟩ := hold
        exact ⟨x, List.mem_append_left _ hx, hxe⟩
      · have hnew : e ∈ es.filter (fun e =>
            !g.entities.any (fun existingEntity => existingEntity.name == e.name)) :=
          List.mem_filter.mpr ⟨he, by simpa using hold⟩
        exact ⟨_, List.mem_append_right _ (List.mem_map_of_mem _ hnew), by simp⟩
    have hnone : es.filter (fun e => !(createEntities toLowerCase g es).1.entities.any
        (fun existingEntity => existingEntity.name == e.name)) = [] := by
      rw [List.filter_eq_nil_iff]
      intro e he
      simp [hany e he]
    generalize (createEntities toLowerCase g es).1 = g1 at hnone
    unfold createEntities
    simp only [hnone, List.map_nil, List.append_nil]

/-- C11: an input relation whose two endpoints are found, whose triple is not stored
and whose type the validator accepts for the endpoint categories (`Context` for an
endpoint without category) is added and returned with `from`, `to` and
`relationType` unchanged and with `fromCategory` and `toCategory` set to those
categories; the loop pushes nothing else for it and logs no warning. -/
theorem createRelations_accepts_valid (g : KnowledgeGraph) (relations : List Relation)
    (r : Relation) (fromEntity toEntity : Entity) (t : RelationshipType)
    (hr : r ∈ relations)
    (hfrom : g.entities.find? (fun e => e.name == r.from_) = some fromEntity)
    (hto : g.entities.find? (fun e => e.name == r.to_) = some toEntity)
    (hnew : g.relations.any (fun existingRelation => sameTriple existingRelation r) = false)
    (ht : RelationshipType.ofValue? r.relationType = some t)
    (hvalid : (validateRelationship (fromEntity.telosCategory.getD .CONTEXT)
      (toEntity.telosCategory.getD .CONTEXT) t).isValid = true) :
    createRelationsStep g r =
      ([{ from_ := r.from_, to_ := r.to_, relationType := r.relationType,
          fromCategory := some (fromEntity.telosCategory.getD .CONTEXT),
          toCategory := some (toEntity.telosCategory.getD .CONTEXT) }], []) ∧
    { from_ := r.from_, to_ := r.to_, relationType := r.relationType,
      fromCategory := some (fromEntity.telosCategory.getD .CONTEXT),
      toCategory := some (toEntity.telosCategory.getD .CONTEXT) }
      ∈ (createRelations g relations).validatedRelations ∧
    { from_ := r.from_, to_ := r.to_, relationType := r.relationType,
      fromCategory := some (fromEntity.telosCategory.getD .CONTEXT),
      toCategory := some (toEntity.telosCategory.getD .CONTEXT) }
      ∈ (createRelations g relations).graph.relations := by
  have hstep : createRelationsStep g r =
      ([{ from_ := r.from_, to_ := r.to_, relationType := r.relationType,
          fromCategory := some (fromEntity.telosCategory.getD .CONTEXT),
          toCategory := some (toEntity.telosCategory.getD .CONTEXT) }], []) := by
    unfold createRelationsStep
    simp only [hnew, hfrom, hto, ht, hvalid, Bool.false_eq_true, if_false, not_true_eq_false]
  have hpushed := createRelationsStep_pushed g relations r _ hr
    (by rw [hstep]; exact List.mem_singleton.mpr rfl)
  exact ⟨hstep, hpushed.1, hpushed.2⟩

/-- C11, at the scenario of the specification: `H` in `Habits`, `P` in `Projects`,
`createRelations([(H, P, supports)])`. -/
theorem createRelations_accepts_valid_witness :
    (⟨"H", "P", "supports", some .HABITS, some .PROJECTS⟩ : Relation) ∈
      (createRelations
        ⟨[⟨"H", "note", some .HABITS, []⟩, ⟨"P", "note", some .PROJECTS, []⟩], []⟩
        [⟨"H", "P", "supports", none, none⟩]).validatedRelations :=
  (createRelations_accepts_valid
    ⟨[⟨"H", "note", some .HABITS, []⟩, ⟨"P", "note", some .PROJECTS, []⟩], []⟩
    [⟨"H", "P", "supports", none, none⟩] ⟨"H", "P", "supports", none, none⟩
    ⟨"H", "note", some .HABITS, []⟩ ⟨"P", "note", some .PROJECTS, []⟩ .SUPPORTS
    (by decide) (by decide) (by decide) (by decide) (by decide) (by decide)).2.1

/-- C12: `addObservations` throws if and only if some item names an entity that is
not in the graph; the error is the not-found message for such an item, and the
persisted graph after a failing call is the graph persisted before it. -/
theorem addObservations_fails_iff (g : KnowledgeGraph) (observations : List ObservationInput) :
    ((∃ message, addObservations g observations = .error message) ↔
      ∃ o ∈ observations, o.entityName ∉ g.entityNames) ∧
    (∀ message, addObservations g observations = .error message →
      addObservationsSaved g observations = g ∧
      ∃ o ∈ observations, o.entityName ∉ g.entityNames ∧
        message = "Entity with name " ++ o.entityName ++ " not found") := by
  refine ⟨⟨?_, ?_⟩, ?_⟩
  · rintro ⟨message, h⟩
    obtain ⟨o, ho, hn, _⟩ := addObservationsLoop_error observations g message h
    exact ⟨o, ho, hn⟩
  · rintro ⟨o, ho, hn⟩
    cases hres : addObservations g observations with
    | error message => exact ⟨message, rfl⟩
    | ok out =>
      exfalso
      obtain ⟨saved, results⟩ := out
      by_cases hall : ∀ o ∈ observations, o.entityName ∈ g.entityNames
      · exact hn (hall o ho)
      · simp only [not_forall] at hall
        obtain ⟨o2, ho2, hn2⟩ := hall
        clear hn2 ho2 o2
        have key : ∀ (os : List ObservationInput) (g1 : KnowledgeGraph),
            (∃ o ∈ os, o.entityName ∉ g1.entityNames) →
            ∀ out, addObservationsLoop g1 os ≠ .ok out := by
          intro os
          induction os with
          | nil => intro g1 h; simp at h
          | cons o1 rest ih =>
            intro g1 h out hok
            unfold addObservationsLoop at hok
            split at hok
            · cases hok
            · rename_i entity hfind
              simp only at hok
              split at hok
              · cases hok
              · rename_i graph2 results2 hrest
                obtain ⟨o3, ho3, hn3⟩ := h
                rcases List.mem_cons.mp ho3 with rfl | ho3
                · have hmem : o3.entityName ∈ g1.entityNames := by
                    have h1 := List.find?_some hfind
                    have h2 := List.mem_of_find?_eq_some hfind
                    simp only [beq_iff_eq] at h1
                    rw [← h1]
                    exact List.mem_map_of_mem _ h2
                  exact hn3 hmem
                · refine ih _ ⟨o3, ho3, ?_⟩ _ hrest
                  simp only [KnowledgeGraph.entityNames] at hn3 ⊢
                  intro hcontra
                  apply hn3
                  have hnames : ∀ f : Entity → Entity, (∀ e, (f e).name = e.name) →
                      o3.entityName ∈ List.map Entity.name
                        (modifyFound o1.entityName f g1.entities) →
                      o3.entityName ∈ List.map Entity.name g1.entities := by
                    intro f hf hm
                    rwa [modifyFound_names _ _ hf] at hm
                  refine hnames _ ?_ hcontra
                  intro e
                  rfl
        exact key observations g ⟨o, ho, hn⟩ (saved, results) hres
  · intro message h
    refine ⟨?_, addObservationsLoop_error observations g message h⟩
    unfold addObservationsSaved
    rw [h]

/-- C12, at a concrete failing call: the second item names an unknown entity, the
first item had already been applied in memory, and nothing is persisted. -/
theorem addObservations_fails_iff_witness :
    addObservations ⟨[⟨"A", "note", none, ["x"]⟩], []⟩ [⟨"A", ["y"]⟩, ⟨"B", ["z"]⟩] =
      .error "Entity with name B not found" ∧
    addObservationsSaved ⟨[⟨"A", "note", none, ["x"]⟩], []⟩ [⟨"A", ["y"]⟩, ⟨"B", ["z"]⟩] =
      ⟨[⟨"A", "note", none, ["x"]⟩], []⟩ :=
  ⟨rfl,
   ((addObservations_fails_iff ⟨[⟨"A", "note", none, ["x"]⟩], []⟩
      [⟨"A", ["y"]⟩, ⟨"B", ["z"]⟩]).2 "Entity with name B not found" rfl).1⟩

/-- C13: a single-item call `addObservations([(name, contents)])` whose entity `e` is
found returns as `addedObservations` the strings of `contents`, in order, that were
not in the observations of `e` before the call; afterwards `e` holds its previous
observations followed by them, and every other entity (in place) and every relation
is unchanged. -/
theorem addObservations_single (g : KnowledgeGraph) (name : String) (contents : List String)
    (e : Entity) (h : g.entities.find? (fun x => x.name == name) = some e) :
    e.name = name ∧
    ∃ pre post, g.entities = pre ++ e :: post ∧ (∀ x ∈ pre, x.name ≠ name) ∧
      addObservations g [⟨name, contents⟩] =
        .ok (⟨pre ++ { e with observations := e.observations ++
                contents.filter (fun c => decide (c ∉ e.observations)) } :: post,
              g.relations⟩,
             [⟨name, contents.filter (fun c => decide (c ∉ e.observations))⟩]) := by
  have hfilter : contents.filter (fun content => !e.observations.contains content) =
      contents.filter (fun c => decide (c ∉ e.observations)) := by
    apply List.filter_congr
    intro c _
    simp
  generalize contents.filter (fun c => decide (c ∉ e.observations)) = added at hfilter ⊢
  obtain ⟨hname, pre, post, hsplit, hpre, hmod⟩ := find?_split g.entities name e
    (fun x => { x with observations := x.observations ++ added }) h
  refine ⟨hname, pre, post, hsplit, hpre, ?_⟩
  unfold addObservations addObservationsLoop
  simp only [h, addObservationsLoop, hfilter, hmod]

/-- C13, at a concrete graph: `A` holds `x`; adding `x` and `y` returns `y` only. -/
theorem addObservations_single_witness :
    ∃ pre post, ([⟨"Z", "note", none, []⟩, ⟨"A", "note", none, ["x"]⟩] : List Entity) =
        pre ++ ⟨"A", "note", none, ["x"]⟩ :: post ∧ (∀ x ∈ pre, x.name ≠ "A") ∧
      addObservations ⟨[⟨"Z", "note", none, []⟩, ⟨"A", "note", none, ["x"]⟩], []⟩
          [⟨"A", ["x", "y"]⟩] =
        .ok (⟨pre ++ { (⟨"A", "note", none, ["x"]⟩ : Entity) with
                observations := ["x"] ++ ["x", "y"].filter (fun c => decide (c ∉ ["x"])) } :: post,
              []⟩,
             [⟨"A", ["x", "y"].filter (fun c => decide (c ∉ ["x"]))⟩]) :=
  (addObservations_single ⟨[⟨"Z", "note", none, []⟩, ⟨"A", "note", none, ["x"]⟩], []⟩
    "A" ["x", "y"] ⟨"A", "note", none, ["x"]⟩ (by decide)).2

/-- C14: a failing input. The entity `A` holds `x`; `addObservations([(A, [y, y])])`
succeeds and appends `y` twice, because `contents` is filtered against the stored
observations only. -/
theorem addObservations_breaks_observation_uniqueness :
    ObservationsUnique ⟨[⟨"A", "note", none, ["x"]⟩], []⟩ ∧
    addObservations ⟨[⟨"A", "note", none, ["x"]⟩], []⟩ [⟨"A", ["y", "y"]⟩] =
      .ok (⟨[⟨"A", "note", none, ["x", "y", "y"]⟩], []⟩, [⟨"A", ["y", "y"]⟩]) ∧
    ¬ ObservationsUnique
      (addObservationsSaved ⟨[⟨"A", "note", none, ["x"]⟩], []⟩ [⟨"A", ["y", "y"]⟩]) :=
  ⟨by decide, rfl, by decide⟩

/-- C20: for every source category other than `Risks`, `threatens` is rejected by the
matrix check, which comes first: the result is invalid and its message is the
`is not valid for category` message, which does not contain
`should only be used by risks`. The special check for `threatens` is never reached. -/
theorem validateRelationship_threatens_message (F T : TelosCategory) (hF : F ≠ .RISKS) :
    (validateRelationship F T .THREATENS).isValid = false ∧
    (validateRelationship F T .THREATENS).errorMessage =
      some ("Relationship type 'threatens' is not valid for category '" ++ F.value ++
        "'. Allowed types: " ++ joinTypes (RELATIONSHIP_MATRIX F)) ∧
    ∀ message, (validateRelationship F T .THREATENS).errorMessage = some message →
      includes message "should only be used by risks" = false := by
  cases F <;> first | exact absurd rfl hF | (cases T <;> decide)

/-- C20, at the input of the test `should reject threatens from non-Risks categories`. -/
theorem validateRelationship_threatens_message_witness :
    (validateRelationship .PROJECTS .OBJECTIVES .THREATENS).errorMessage =
      some ("Relationship type 'threatens' is not valid for category 'Projects'. " ++
        "Allowed types: supports, enables, constrains, mentors, informs, reflects_on") ∧
    ∀ message, (validateRelationship .PROJECTS .OBJECTIVES .THREATENS).errorMessage =
        some message → includes message "should only be used by risks" = false :=
  ⟨by decide,
   (validateRelationship_threatens_message .PROJECTS .OBJECTIVES (by decide)).2.2⟩

/-! ## Properties of the path finder -/

/-- C15: every entry returned by `findRelationshipPaths(from, to, maxDepth)` is a walk
of the stored graph: `path` starts with `from` and ends with `to`, it has one more
element than `relationshipTypes`, for every position `i` a stored relation goes from
`path[i]` to `path[i+1]` with type `relationshipTypes[i]`, and the number of edges is
at least 1 and at most `maxDepth`. -/
theorem findRelationshipPaths_sound (g : KnowledgeGraph) (fromEntity toEntity : String)
    (maxDepth : Nat) (e : RelationshipPath)
    (he : e ∈ findRelationshipPaths g fromEntity toEntity maxDepth) :
    e.path.head? = some fromEntity ∧ e.path.getLast? = some toEntity ∧
    e.path.length = e.relationshipTypes.length + 1 ∧
    (∀ i, i < e.relationshipTypes.length → ∃ r ∈ g.relations,
      e.path[i]? = some r.from_ ∧ e.path[i + 1]? = some r.to_ ∧
        e.relationshipTypes[i]? = some r.relationType) ∧
    1 ≤ e.relationshipTypes.length ∧ e.relationshipTypes.length ≤ maxDepth := by
  obtain ⟨rs, hb, rfl⟩ := (mem_findRelationshipPaths g fromEntity toEntity maxDepth e).mp he
  have hpath := SearchBranch.path_eq rs hb
  have hlen := SearchBranch.depth_le rs hb
  have hne := SearchBranch.ne_nil hb (le_refl 1)
  refine ⟨rfl, ?_, by simp, ?_, ?_, by simpa using hlen⟩
  · show (fromEntity :: rs.map Relation.to_).getLast? = some toEntity
    rw [hpath]
    simp
  · intro i hi
    simp only [List.length_map] at hi
    refine ⟨rs[i], SearchBranch.stored rs hb _ (List.getElem_mem hi), ?_, ?_, ?_⟩
    · show (fromEntity :: rs.map Relation.to_)[i]? = some rs[i].from_
      rw [hpath, List.getElem?_append_left (by simpa using hi)]
      simp [hi]
    · show (fromEntity :: rs.map Relation.to_)[i + 1]? = some rs[i].to_
      simp [hi]
    · show (rs.map Relation.relationType)[i]? = some rs[i].relationType
      simp [hi]
  · simp only [List.length_map]
    exact Nat.one_le_iff_ne_zero.mpr (fun h0 => hne (List.length_eq_zero.mp h0))

/-- C15, at a concrete graph with the cycle `A -> B -> A` and the edge `B -> C`: the
entry `A, B, C` returned for `(A, C, 3)` is a walk of two stored relations. -/
theorem findRelationshipPaths_sound_witness :
    (⟨["A", "B", "C"], ["knows", "uses"]⟩ : RelationshipPath) ∈
      findRelationshipPaths
        ⟨[], [⟨"A", "B", "knows", none, none⟩, ⟨"B", "A", "knows", none, none⟩,
              ⟨"B", "C", "uses", none, none⟩]⟩ "A" "C" 3 ∧
    (["A", "B", "C"] : List String).getLast? = some "C" ∧
    1 ≤ (["knows", "uses"] : List String).length ∧
    (["knows", "uses"] : List String).length ≤ 3 :=
  ⟨by decide,
   (findRelationshipPaths_sound
      ⟨[], [⟨"A", "B", "knows", none, none⟩, ⟨"B", "A", "knows", none, none⟩,
            ⟨"B", "C", "uses", none, none⟩]⟩ "A" "C" 3 ⟨["A", "B", "C"], ["knows", "uses"]⟩
      (by decide)).2.1,
   (findRelationshipPaths_sound
      ⟨[], [⟨"A", "B", "knows", none, none⟩, ⟨"B", "A", "knows", none, none⟩,
            ⟨"B", "C", "uses", none, none⟩]⟩ "A" "C" 3 ⟨["A", "B", "C"], ["knows", "uses"]⟩
      (by decide)).2.2.2.2.1,
   (findRelationshipPaths_sound
      ⟨[], [⟨"A", "B", "knows", none, none⟩, ⟨"B", "A", "knows", none, none⟩,
            ⟨"B", "C", "uses", none, none⟩]⟩ "A" "C" 3 ⟨["A", "B", "C"], ["knows", "uses"]⟩
      (by decide)).2.2.2.2.2⟩

/-- C16: the search is complete for simple paths within the bound. For stored
relations `r1 .. rk` with `1 ≤ k ≤ maxDepth` that form a chain from `from` (`r1.from`
is `from` and each relation starts where the previous one ends) and end at `to`, whose
nodes `from, r1.to, .., r(k-1).to` are pairwise distinct and whose intermediate nodes
`r1.to, .., r(k-1).to` differ from `to`, the result holds the entry with path
`from, r1.to, .., rk.to` and the relation types of `r1 .. rk`. -/
theorem findRelationshipPaths_complete (g : KnowledgeGraph) (fromEntity toEntity : String)
    (maxDepth : Nat) (rs : List Relation)
    (hstored : ∀ r ∈ rs, r ∈ g.relations)
    (hk1 : 1 ≤ rs.length) (hk2 : rs.length ≤ maxDepth)
    (hchain : isChain fromEntity rs = true)
    (hend : rs.getLast?.map Relation.to_ = some toEntity)
    (hdistinct : (fromEntity :: rs.dropLast.map Relation.to_).Nodup)
    (hinner : ∀ n ∈ rs.dropLast.map Relation.to_, n ≠ toEntity) :
    (⟨fromEntity :: rs.map Relation.to_, rs.map Relation.relationType⟩ : RelationshipPath) ∈
      findRelationshipPaths g fromEntity toEntity maxDepth := by
  have hne : rs ≠ [] := by
    intro h
    rw [h] at hk1
    simp at hk1
  have hnodes := isChain_nodes rs fromEntity hchain hne
  rw [mem_findRelationshipPaths]
  refine ⟨rs, ?_, rfl⟩
  apply SearchBranch.build rs fromEntity 1 0 [] hstored hchain (by omega)
  · cases rs with
    | nil => exact absurd rfl hne
    | cons r rest =>
      rw [List.map_cons, List.getLast?_cons_cons, ← List.map_cons, List.getLast?_map]
      exact hend
  · omega
  · intro h; exact absurd h hne
  · intro _; exact Or.inl (le_refl 1)
  · rw [← hnodes]; exact hdistinct
  · intro n _; simp
  · intro r hr
    apply hinner
    have h1 : r.from_ ∈ (rs.map Relation.from_).tail := by
      rw [← List.map_tail]
      exact List.mem_map_of_mem _ hr
    rw [← hnodes] at h1
    simpa using h1

/-- C16, at a concrete graph: the chain `A -> B -> C` is found for `(A, C, 2)` although
`B` also leads back to `A`. -/
theorem findRelationshipPaths_complete_witness :
    (⟨["A", "B", "C"], ["knows", "uses"]⟩ : RelationshipPath) ∈
      findRelationshipPaths
        ⟨[], [⟨"A", "B", "knows", none, none⟩, ⟨"B", "A", "knows", none, none⟩,
              ⟨"B", "C", "uses", none, none⟩]⟩ "A" "C" 2 :=
  findRelationshipPaths_complete
    ⟨[], [⟨"A", "B", "knows", none, none⟩, ⟨"B", "A", "knows", none, none⟩,
          ⟨"B", "C", "uses", none, none⟩]⟩ "A" "C" 2
    [⟨"A", "B", "knows", none, none⟩, ⟨"B", "C", "uses", none, none⟩]
    (by decide) (by decide) (by decide) (by decide) (by decide) (by decide) (by decide)

/-- C17 (as stated, refuted): with the cycle `A -> B -> A`, the call for `(A, A, 3)`
returns the path `A, B, A`, which holds `A` at two positions. -/
theorem findRelationshipPaths_repeats_start :
    findRelationshipPaths
      ⟨[], [⟨"A", "B", "knows", none, none⟩, ⟨"B", "A", "knows", none, none⟩]⟩ "A" "A" 3 =
      [⟨["A", "B", "A"], ["knows", "knows"]⟩] ∧
    ¬ ∀ e ∈ findRelationshipPaths
        ⟨[], [⟨"A", "B", "knows", none, none⟩, ⟨"B", "A", "knows", none, none⟩]⟩ "A" "A" 3,
      e.path.Nodup := by
  decide

/-- C17 (amended): in every path returned by `findRelationshipPaths(from, to, maxDepth)`
the elements before the last one are pairwise distinct, and when `from` differs from
`to` the whole path holds no name at two positions. -/
theorem findRelationshipPaths_simple (g : KnowledgeGraph) (fromEntity toEntity : String)
    (maxDepth : Nat) (e : RelationshipPath)
    (he : e ∈ findRelationshipPaths g fromEntity toEntity maxDepth) :
    e.path.dropLast.Nodup ∧ (fromEntity ≠ toEntity → e.path.Nodup) := by
  obtain ⟨rs, hb, rfl⟩ := (mem_findRelationshipPaths g fromEntity toEntity maxDepth e).mp he
  have hpath := SearchBranch.path_eq rs hb
  have hnodup := (SearchBranch.nodup rs hb).1
  show (fromEntity :: rs.map Relation.to_).dropLast.Nodup ∧
    (fromEntity ≠ toEntity → (fromEntity :: rs.map Relation.to_).Nodup)
  rw [hpath]
  refine ⟨by simpa using hnodup, ?_⟩
  intro hne
  rw [List.nodup_append]
  refine ⟨hnodup, by simp, ?_⟩
  intro a ha hb2
  rw [List.mem_singleton] at hb2
  subst hb2
  cases rs with
  | nil => simp at ha
  | cons r rest =>
    obtain ⟨_, _, _, _, hfrom, hrest⟩ := hb
    rw [List.map_cons, List.mem_cons] at ha
    rcases ha with rfl | ha
    · exact hne hfrom.symm
    · exact SearchBranch.inner rest hrest (by omega) a ha rfl

/-- C17 (amended), at a concrete graph with a cycle: the path returned for `(A, C, 3)`
has no repetition. -/
theorem findRelationshipPaths_simple_witness :
    (⟨["A", "B", "C"], ["knows", "uses"]⟩ : RelationshipPath) ∈
      findRelationshipPaths
        ⟨[], [⟨"A", "B", "knows", none, none⟩, ⟨"B", "A", "knows", none, none⟩,
              ⟨"B", "C", "uses", none, none⟩]⟩ "A" "C" 3 ∧
    (["A", "B", "C"] : List String).Nodup :=
  ⟨by decide,
   (findRelationshipPaths_simple
      ⟨[], [⟨"A", "B", "knows", none, none⟩, ⟨"B", "A", "knows", none, none⟩,
            ⟨"B", "C", "uses", none, none⟩]⟩ "A" "C" 3 ⟨["A", "B", "C"], ["knows", "uses"]⟩
      (by decide)).2 (by decide)⟩

/-! ## Properties of the memory file -/

/-- C18: save/load round trip. If `JSON.parse` gives back every object `saveGraph`
passes to `JSON.stringify` for this graph, and no line written for them contains a
line feed or is blank, then loading the text written by `saveGraph` yields the same
entities and the same relations, in the same order, each entity with its observation
sequence unchanged. -/
theorem loadGraph_saveGraph (stringify : Item → String) (parse : String → Option Item)
    (g : KnowledgeGraph)
    (hparse : ∀ item ∈ records g, parse (stringify item) = some item)
    (hline : ∀ item ∈ records g, lineFeed ∉ (stringify item).data)
    (hblank : ∀ item ∈ records g, isNonBlank (stringify item) = true) :
    loadGraph parse (some (saveGraph stringify g)) = .ok g := by
  have hlines : g.entities.map (fun e => stringify (.entity e)) ++
      g.relations.map (fun r => stringify (.relation r)) = (records g).map stringify := by
    simp [records, List.map_append, List.map_map, Function.comp_def]
  have hload := loadLines_records stringify parse g.entities g.relations
    { entities := [], relations := [] }
    (fun e he => hparse _ (by simp [records, he]))
    (fun r hr => hparse _ (by simp [records, hr]))
  unfold loadGraph saveGraph
  simp only []
  by_cases hne : records g = []
  · have he : g.entities = [] := by
      have := congrArg List.length hne
      simp [records] at this
      exact this.1
    have hr : g.relations = [] := by
      have := congrArg List.length hne
      simp [records] at this
      exact this.2
    cases g
    simp only at he hr
    subst he hr
    rfl
  · rw [hlines, splitLines_joinLines _ (by simpa using hne)
      (by
        intro line hl
        obtain ⟨item, hi, rfl⟩ := List.mem_map.mp hl
        exact hline item hi)]
    have hfilter : ((records g).map stringify).filter isNonBlank = (records g).map stringify := by
      rw [List.filter_eq_self]
      intro line hl
      obtain ⟨item, hi, rfl⟩ := List.mem_map.mp hl
      exact hblank item hi
    rw [hfilter, ← hlines, hload]
    simp

/-- C18, at the example file: one entity and one relation, written as two lines and
read back. -/
theorem loadGraph_saveGraph_witness :
    loadGraph sampleParse
        (some (saveGraph sampleStringify ⟨[sampleEntity], [sampleRelation]⟩)) =
      .ok ⟨[sampleEntity], [sampleRelation]⟩ :=
  loadGraph_saveGraph sampleStringify sampleParse ⟨[sampleEntity], [sampleRelation]⟩
    (by decide) (by decide) (by decide)

/-- C19: `loadGraph` does not skip a malformed line. If some non-blank line of the file
is rejected by `JSON.parse`, the load fails with the error thrown for a line of the
file, whereas `loadKnowledgeGraph` of `scripts/validate-taxonomy.js` returns a graph
for the same file. -/
theorem loadGraph_malformed_line (parse : String → Option Item) (data line : String)
    (hline : line ∈ splitLines data) (hnonblank : isNonBlank line = true)
    (hbad : parse line = none) :
    (∃ bad ∈ splitLines data,
      loadGraph parse (some data) = .error (.syntaxError bad) ∨
        loadGraph parse (some data) = .error (.typeError bad)) ∧
    ∃ graph, loadKnowledgeGraph parse (some data) = .ok graph := by
  refine ⟨?_, ⟨_, rfl⟩⟩
  obtain ⟨bad, hmem, hres⟩ := loadLines_malformed parse ((splitLines data).filter isNonBlank)
    { entities := [], relations := [] }
    ⟨line, List.mem_filter.mpr ⟨hline, hnonblank⟩, hbad⟩
  exact ⟨bad, (List.mem_filter.mp hmem).1, hres⟩

/-- C19, at a failing input: a file of three lines whose second line is `oops`.
`loadGraph` throws the syntax error of that line; the loader of the validation script
skips the line and returns the two records. -/
theorem loadGraph_malformed_line_witness :
    loadGraph sampleParse
        (some (joinLines [sampleEntityLine, "oops", sampleRelationLine])) =
      .error (.syntaxError "oops") ∧
    loadKnowledgeGraph sampleParse
        (some (joinLines [sampleEntityLine, "oops", sampleRelationLine])) =
      .ok ⟨[sampleEntity], [sampleRelation]⟩ ∧
    ∃ graph, loadKnowledgeGraph sampleParse
        (some (joinLines [sampleEntityLine, "oops", sampleRelationLine])) = .ok graph :=
  ⟨rfl, rfl,
   (loadGraph_malformed_line sampleParse
      (joinLines [sampleEntityLine, "oops", sampleRelationLine]) "oops"
      (by decide) (by decide) (by decide)).2⟩

/-! ## Further properties of the validator and of the taxonomy -/

/-- C21: for a source category `F` other than `Relationships`, `mentors` is invalid.
When the matrix row of `F` contains `mentors` (exactly for Identity, Objectives,
Projects, Habits, Risks, DecisionJournal and Retros) the message is the
`should only be used by people` message naming `F`; otherwise it is the
`is not valid for category` message of the matrix check. -/
theorem validateRelationship_mentors_message (F T : TelosCategory)
    (hF : F ≠ .RELATIONSHIPS) :
    (validateRelationship F T .MENTORS).isValid = false ∧
    (RelationshipType.MENTORS ∈ RELATIONSHIP_MATRIX F ↔
      F ∈ [TelosCategory.IDENTITY, .OBJECTIVES, .PROJECTS, .HABITS, .RISKS,
        .DECISION_JOURNAL, .RETROS]) ∧
    (RelationshipType.MENTORS ∈ RELATIONSHIP_MATRIX F →
      (validateRelationship F T .MENTORS).errorMessage =
        some ("Relationship type 'mentors' should only be used by people " ++
          "(Relationships category), not '" ++ F.value ++ "'")) ∧
    (RelationshipType.MENTORS ∉ RELATIONSHIP_MATRIX F →
      (validateRelationship F T .MENTORS).errorMessage =
        some ("Relationship type 'mentors' is not valid for category '" ++ F.value ++
          "'. Allowed types: " ++ joinTypes (RELATIONSHIP_MATRIX F))) := by
  cases F <;> first | exact absurd rfl hF | (cases T <;> decide)

/-- C21, at the input of the test `should reject mentors from non-Relationships
categories`, and at a category whose row has no `mentors`. -/
theorem validateRelationship_mentors_message_witness :
    (validateRelationship .PROJECTS .OBJECTIVES .MENTORS).errorMessage =
      some ("Relationship type 'mentors' should only be used by people " ++
        "(Relationships category), not 'Projects'") ∧
    (validateRelationship .MEMORY .OBJECTIVES .MENTORS).errorMessage =
      some ("Relationship type 'mentors' is not valid for category 'Memory'. " ++
        "Allowed types: supports, enables, constrains, informs") :=
  ⟨(validateRelationship_mentors_message .PROJECTS .OBJECTIVES (by decide)).2.2.1 (by decide),
   (validateRelationship_mentors_message .MEMORY .OBJECTIVES (by decide)).2.2.2 (by decide)⟩

/-- C22: two failing inputs, and all of them. `getSuggestedRelationships(Projects,
Objectives)` holds `mentors`, which the validator rejects from `Projects`;
`getSuggestedRelationships(Risks, Identity)` holds `supports`, which the validator
rejects from `Risks`. In general a suggested type is rejected exactly when it is
`mentors` from a category other than `Relationships`, or `supports` from `Risks`. -/
theorem getSuggestedRelationships_suggests_invalid :
    (RelationshipType.MENTORS ∈ getSuggestedRelationships .PROJECTS .OBJECTIVES ∧
      (validateRelationship .PROJECTS .OBJECTIVES .MENTORS).isValid = false) ∧
    (RelationshipType.SUPPORTS ∈ getSuggestedRelationships .RISKS .IDENTITY ∧
      (validateRelationship .RISKS .IDENTITY .SUPPORTS).isValid = false) ∧
    ∀ (F T : TelosCategory) (R : RelationshipType), R ∈ getSuggestedRelationships F T →
      ((validateRelationship F T R).isValid = false ↔
        (R = .MENTORS ∧ F ≠ .RELATIONSHIPS) ∨ (R = .SUPPORTS ∧ F = .RISKS)) := by
  refine ⟨by decide, by decide, ?_⟩
  intro F T R
  cases F <;> cases T <;> cases R <;> decide

/-- C23: `getDefaultRelationship` is total. Its value is one of the 7 relation types;
it is the entry stored under the key `F-T` of the default table when there is one,
and `supports` otherwise. -/
theorem getDefaultRelationship_total (F T : TelosCategory) :
    getDefaultRelationship F T ∈ RelationshipType.values ∧
    DEFAULT_RELATIONSHIPS F T = defaultRelationshipByKey F T ∧
    (∀ t, defaultRelationshipByKey F T = some t → getDefaultRelationship F T = t) ∧
    (defaultRelationshipByKey F T = none → getDefaultRelationship F T = .SUPPORTS) := by
  cases F <;> cases T <;> decide

/-- C27: the taxonomy table is well-formed. There are exactly 7 relation types and
exactly 12 categories (the lists of members are complete and without repetition, and
so are their string values), and every matrix row is non-empty and holds only
relation types of the list. -/
theorem taxonomy_well_formed :
    (RelationshipType.values.length = 7 ∧ RelationshipType.values.Nodup ∧
      (∀ t : RelationshipType, t ∈ RelationshipType.values) ∧
      RelationshipType.values.map RelationshipType.value =
        ["supports", "enables", "constrains", "mentors", "informs", "reflects_on",
         "threatens"] ∧
      (RelationshipType.values.map RelationshipType.value).Nodup) ∧
    (TelosCategory.values.length = 12 ∧ TelosCategory.values.Nodup ∧
      (∀ c : TelosCategory, c ∈ TelosCategory.values) ∧
      TelosCategory.values.map TelosCategory.value =
        ["Identity", "Memory", "Resources", "Context", "Conventions", "Objectives",
         "Projects", "Habits", "Risks", "DecisionJournal", "Relationships", "Retros"] ∧
      (TelosCategory.values.map TelosCategory.value).Nodup) ∧
    ∀ C : TelosCategory, RELATIONSHIP_MATRIX C ≠ [] ∧ (RELATIONSHIP_MATRIX C).Nodup ∧
      ∀ t ∈ RELATIONSHIP_MATRIX C, t ∈ RelationshipType.values := by
  refine ⟨⟨by decide, by decide, ?_, by decide, by decide⟩,
    ⟨by decide, by decide, ?_, by decide, by decide⟩, ?_⟩
  · intro t; cases t <;> decide
  · intro c; cases c <;> decide
  · intro C; cases C <;> decide

/-! ## Further properties of `createRelations` -/

/-- C28: two failing inputs. With `K` in `Risks` and `I` in `Identity`, the relation
`(K, I, enables)` is auto-corrected to the fallback default `supports`, and the
relation `(K, I, supports)` is rejected and "corrected" to `supports` again; in both
calls the returned relation records `Risks` and `Identity`, for which the validator
rejects `supports`. -/
theorem createRelations_returns_invalid :
    (createRelations
        ⟨[⟨"K", "note", some .RISKS, []⟩, ⟨"I", "note", some .IDENTITY, []⟩], []⟩
        [⟨"K", "I", "enables", none, none⟩]).validatedRelations =
      [⟨"K", "I", "supports", some .RISKS, some .IDENTITY⟩] ∧
    (createRelations
        ⟨[⟨"K", "note", some .RISKS, []⟩, ⟨"I", "note", some .IDENTITY, []⟩], []⟩
        [⟨"K", "I", "supports", none, none⟩]).validatedRelations =
      [⟨"K", "I", "supports", some .RISKS, some .IDENTITY⟩] ∧
    RelationshipType.ofValue? "supports" = some .SUPPORTS ∧
    (validateRelationship .RISKS .IDENTITY .SUPPORTS).isValid = false := by
  decide

/-- C30: a failing input. `createEntities` stores the category `Bogus` it is given,
which is the value of no member of `TelosCategory`. On the graph it saves,
`createRelations([(X, X, supports)])` throws a `TypeError` in `validateRelationship`,
where `RELATIONSHIP_MATRIX['Bogus']` is `undefined`: nothing is returned and nothing
is stored. The same call with the unknown type `likes` does not reach
`validateRelationship` and returns the relation with the type `supports`. -/
theorem createRelations_throws_on_stored_category (toLowerCase : String → String) :
    createEntitiesUntyped toLowerCase ⟨[], []⟩ [⟨"X", "note", some "Bogus", []⟩] =
      (⟨[⟨"X", "note", some "Bogus", []⟩], []⟩, [⟨"X", "note", some "Bogus", []⟩]) ∧
    (∀ c ∈ TelosCategory.values, c.value ≠ "Bogus") ∧
    isValidRelationshipType "supports" = true ∧
    createRelationsUntyped ⟨[⟨"X", "note", some "Bogus", []⟩], []⟩
        [⟨"X", "X", "supports", none, none⟩] = .error .typeError ∧
    isValidRelationshipType "likes" = false ∧
    createRelationsUntyped ⟨[⟨"X", "note", some "Bogus", []⟩], []⟩
        [⟨"X", "X", "likes", none, none⟩] =
      .ok { graph := ⟨[⟨"X", "note", some "Bogus", []⟩],
                      [⟨"X", "X", "supports", some "Bogus", some "Bogus"⟩]⟩
            validatedRelations := [⟨"X", "X", "supports", some "Bogus", some "Bogus"⟩]
            validationErrors :=
              ["Unknown relationship type 'likes'. Using suggested: 'supports'"] } :=
  ⟨rfl, by decide, by decide, rfl, by decide, rfl⟩

/-! ## Properties of the classifier and of the search -/

/-- C24: let `toLowerCase` map ASCII text as `String.prototype.toLowerCase` does
(`A`-`Z` to `a`-`z`, every other ASCII character kept). With the score of a category
the number of its keywords that occur in the search text (the lowercased name, a
space, the observations joined by spaces), `detectTelosCategory` returns `Context`
when every score is 0, and otherwise the first category, in table order, whose score
is the maximum: every earlier category scores less and no later one scores more. The
two scenarios of the specification give `Habits` and `Context`. -/
theorem detectTelosCategory_spec (toLowerCase : String → String)
    (hascii : ∀ s : String, (∀ c ∈ s.data, c.toNat < 128) →
      toLowerCase s = sampleToLowerCase s)
    (entityName : String) (observations : List String) :
    (∀ entry ∈ CATEGORY_KEYWORDS,
      keywordScore toLowerCase (searchTextOf toLowerCase entityName observations) entry.2 =
        (entry.2.filter (fun k =>
          decide (k.data <:+: (searchTextOf toLowerCase entityName observations).data))).length) ∧
    ((∀ entry ∈ CATEGORY_KEYWORDS,
        keywordScore toLowerCase (searchTextOf toLowerCase entityName observations) entry.2 = 0) →
      detectTelosCategory toLowerCase entityName observations = .CONTEXT) ∧
    ((∃ entry ∈ CATEGORY_KEYWORDS,
        0 < keywordScore toLowerCase (searchTextOf toLowerCase entityName observations) entry.2) →
      ∃ pre x post, CATEGORY_KEYWORDS = pre ++ x :: post ∧
        (∀ e ∈ pre,
          keywordScore toLowerCase (searchTextOf toLowerCase entityName observations) e.2 <
          keywordScore toLowerCase (searchTextOf toLowerCase entityName observations) x.2) ∧
        (∀ e ∈ post,
          keywordScore toLowerCase (searchTextOf toLowerCase entityName observations) e.2 ≤
          keywordScore toLowerCase (searchTextOf toLowerCase entityName observations) x.2) ∧
        detectTelosCategory toLowerCase entityName observations = x.1) ∧
    detectTelosCategory toLowerCase "daily_standup" ["routine meeting", "daily practice"] =
      .HABITS ∧
    detectTelosCategory toLowerCase "x" ["no matching words"] = .CONTEXT := by
  refine ⟨?_, ?_, ?_, ?_, ?_⟩
  · intro entry hentry
    rw [keywordScore_eq]
    congr 1
    apply List.filter_congr
    intro k hk
    rw [keywords_fixed toLowerCase hascii entry hentry k hk]
    by_cases h : k.data <:+: (searchTextOf toLowerCase entityName observations).data
    · simp [h, (includes_iff _ _).mpr h]
    · have : includes (searchTextOf toLowerCase entityName observations) k = false := by
        cases hi : includes (searchTextOf toLowerCase entityName observations) k with
        | false => rfl
        | true => exact absurd ((includes_iff _ _).mp hi) h
      simp [h, this]
  · intro hzero
    rw [detectTelosCategory_eq, bestMatch_keep]
    intro e he
    simp [hzero e he]
  · intro hpos
    obtain ⟨pre, x, post, hl, hpre, hpost, _, hres⟩ :=
      bestMatch_first_max toLowerCase (searchTextOf toLowerCase entityName observations)
        CATEGORY_KEYWORDS (TelosCategory.CONTEXT, 0) hpos
    refine ⟨pre, x, post, hl, hpre, hpost, ?_⟩
    rw [detectTelosCategory_eq, hres]
  · rw [detectTelosCategory_ascii toLowerCase hascii _ _ (by decide)]
    decide
  · rw [detectTelosCategory_ascii toLowerCase hascii _ _ (by decide)]
    decide

/-- C24, at a concrete input with the ASCII stand-in for `toLowerCase`: the name
`Sprint GOAL` with the observation `Quarterly Target` scores by keywords that occur
in the lowercased text and is classified `Objectives`. -/
theorem detectTelosCategory_spec_witness :
    (∀ s : String, (∀ c ∈ s.data, c.toNat < 128) →
      sampleToLowerCase s = sampleToLowerCase s) ∧
    (∀ entry ∈ CATEGORY_KEYWORDS,
      keywordScore sampleToLowerCase
          (searchTextOf sampleToLowerCase "Sprint GOAL" ["Quarterly Target"]) entry.2 =
        (entry.2.filter (fun k => decide (k.data <:+:
          (searchTextOf sampleToLowerCase "Sprint GOAL" ["Quarterly Target"]).data))).length) ∧
    searchTextOf sampleToLowerCase "Sprint GOAL" ["Quarterly Target"] =
      "sprint goal quarterly target" ∧
    detectTelosCategory sampleToLowerCase "Sprint GOAL" ["Quarterly Target"] = .OBJECTIVES :=
  ⟨fun _ _ => rfl,
   (detectTelosCategory_spec sampleToLowerCase (fun _ _ => rfl) "Sprint GOAL"
      ["Quarterly Target"]).1,
   by decide, by decide⟩

/-- C26: `searchNodes(q)` returns as entities the entities of the graph for which the
lowercased `q` occurs in the lowercased name, in the lowercased entity type or in
some lowercased observation, and as relations the relations of the graph whose `from`
and `to` are both names of returned entities, both in the order of the graph;
`toLowerCase` is the runtime's `String.prototype.toLowerCase`, whatever it maps a
string to. -/
theorem searchNodes_spec (toLowerCase : String → String) (g : KnowledgeGraph) (q : String) :
    (searchNodes toLowerCase g q).entities = g.entities.filter (fun e => decide (
      (toLowerCase q).data <:+: (toLowerCase e.name).data ∨
      (toLowerCase q).data <:+: (toLowerCase e.entityType).data ∨
      ∃ o ∈ e.observations, (toLowerCase q).data <:+: (toLowerCase o).data)) ∧
    (searchNodes toLowerCase g q).relations = g.relations.filter (fun r => decide (
      r.from_ ∈ (searchNodes toLowerCase g q).entities.map Entity.name ∧
      r.to_ ∈ (searchNodes toLowerCase g q).entities.map Entity.name)) ∧
    (searchNodes toLowerCase g q).entities.Sublist g.entities ∧
    (searchNodes toLowerCase g q).relations.Sublist g.relations := by
  have hinc : ∀ s : String, includes (toLowerCase s) (toLowerCase q) =
      decide ((toLowerCase q).data <:+: (toLowerCase s).data) := by
    intro s
    by_cases h : (toLowerCase q).data <:+: (toLowerCase s).data
    · simp [h, (includes_iff _ _).mpr h]
    · have : includes (toLowerCase s) (toLowerCase q) = false := by
        cases hi : includes (toLowerCase s) (toLowerCase q) with
        | false => rfl
        | true => exact absurd ((includes_iff _ _).mp hi) h
      simp [h, this]
  refine ⟨?_, ?_, List.filter_sublist _, List.filter_sublist _⟩
  · simp only [searchNodes]
    apply List.filter_congr
    intro e _
    simp only [hinc]
    have hany : (e.observations.any fun o =>
        decide ((toLowerCase q).data <:+: (toLowerCase o).data)) =
        decide (∃ o ∈ e.observations, (toLowerCase q).data <:+: (toLowerCase o).data) := by
      by_cases h : ∃ o ∈ e.observations, (toLowerCase q).data <:+: (toLowerCase o).data
      · rw [decide_eq_true h, List.any_eq_true]
        obtain ⟨o, ho, hq⟩ := h
        exact ⟨o, ho, decide_eq_true hq⟩
      · rw [decide_eq_false h]
        cases hb : (e.observations.any fun o =>
            decide ((toLowerCase q).data <:+: (toLowerCase o).data)) with
        | false => rfl
        | true =>
          rw [List.any_eq_true] at hb
          obtain ⟨o, ho, hq⟩ := hb
          exact absurd ⟨o, ho, of_decide_eq_true hq⟩ h
    rw [hany, Bool.or_assoc, Bool.decide_or, Bool.decide_or]
  · simp only [searchNodes]
    apply List.filter_congr
    intro r _
    simp

/-- C25: category detection is presence-based. Let `toLowerCase` map ASCII text as
`String.prototype.toLowerCase` does, and map the text before a space and the text
after it independently, as it does (a space is neither a cased letter nor
case-ignorable, so no case mapping looks across it). Then for every name and every
observation list, `detectTelosCategory(name, obs ++ obs)` is
`detectTelosCategory(name, obs)`: no keyword contains a space, so a keyword occurs in
the text with the observations repeated exactly when it occurs in the text itself,
and every score is unchanged. -/
theorem detectTelosCategory_repeat (toLowerCase : String → String)
    (hascii : ∀ s : String, (∀ c ∈ s.data, c.toNat < 128) →
      toLowerCase s = sampleToLowerCase s)
    (hspace : ∀ x y : String,
      toLowerCase (x ++ " " ++ y) = toLowerCase x ++ " " ++ toLowerCase y)
    (entityName : String) (observations : List String) :
    detectTelosCategory toLowerCase entityName (observations ++ observations) =
      detectTelosCategory toLowerCase entityName observations ∧
    ∀ entry ∈ CATEGORY_KEYWORDS,
      keywordScore toLowerCase
          (searchTextOf toLowerCase entityName (observations ++ observations)) entry.2 =
        keywordScore toLowerCase (searchTextOf toLowerCase entityName observations) entry.2 := by
  have hscore : ∀ entry ∈ CATEGORY_KEYWORDS,
      keywordScore toLowerCase
          (searchTextOf toLowerCase entityName (observations ++ observations)) entry.2 =
        keywordScore toLowerCase (searchTextOf toLowerCase entityName observations) entry.2 := by
    intro entry hentry
    cases observations with
    | nil => rfl
    | cons a rest =>
      apply keywordScore_congr
      intro k hk
      rw [keywords_fixed toLowerCase hascii entry hentry k hk]
      exact includes_repeat toLowerCase hspace entityName a rest k
        (keywords_without_space entry hentry k hk)
  refine ⟨?_, hscore⟩
  rw [detectTelosCategory_eq, detectTelosCategory_eq, bestMatch_congr _ _ _ _ _ hscore]

/-- C25, at a concrete input with the ASCII stand-in for `toLowerCase`: the
observations `Daily Routine` and `morning habit`, given once and given twice, are
classified `Habits`. -/
theorem detectTelosCategory_repeat_witness :
    (∀ s : String, (∀ c ∈ s.data, c.toNat < 128) →
      sampleToLowerCase s = sampleToLowerCase s) ∧
    (∀ x y : String, sampleToLowerCase (x ++ " " ++ y) =
      sampleToLowerCase x ++ " " ++ sampleToLowerCase y) ∧
    detectTelosCategory sampleToLowerCase "Jog"
        (["Daily Routine", "morning habit"] ++ ["Daily Routine", "morning habit"]) =
      detectTelosCategory sampleToLowerCase "Jog" ["Daily Routine", "morning habit"] ∧
    detectTelosCategory sampleToLowerCase "Jog" ["Daily Routine", "morning habit"] = .HABITS :=
  ⟨fun _ _ => rfl, sampleToLowerCase_space,
   (detectTelosCategory_repeat sampleToLowerCase (fun _ _ => rfl) sampleToLowerCase_space
      "Jog" ["Daily Routine", "morning habit"]).1,
   by decide⟩

/-! ## Termination of the path finder -/

/-- C29: the path search terminates and its recursion is bounded. For every graph
(cycles and self-loops included), every `from`, `to` and natural number `maxDepth`,
the search run with room for the initial call and `maxDepth + 1` calls nested in it
never exceeds that room: it returns the result of `findRelationshipPaths` and leaves
`visited` empty. More room gives the same result. -/
theorem findPaths_terminates (g : KnowledgeGraph) (fromEntity toEntity : String)
    (maxDepth : Nat) :
    findPathsBounded g maxDepth toEntity (maxDepth + 2) fromEntity [fromEntity] [] 0
        { paths := [], visited := [] } =
      some { paths := findRelationshipPaths g fromEntity toEntity maxDepth, visited := [] } ∧
    ∀ extra : Nat,
      findPathsBounded g maxDepth toEntity (maxDepth + 2 + extra) fromEntity [fromEntity] [] 0
          { paths := [], visited := [] } =
        some { paths := findRelationshipPaths g fromEntity toEntity maxDepth, visited := [] } := by
  have key : ∀ extra : Nat,
      findPathsBounded g maxDepth toEntity (maxDepth + 2 + extra) fromEntity [fromEntity] [] 0
          { paths := [], visited := [] } =
        some { paths := findRelationshipPaths g fromEntity toEntity maxDepth, visited := [] } := by
    intro extra
    rw [findPathsBounded_eq g maxDepth toEntity (maxDepth + 2 + extra) fromEntity [fromEntity]
      [] 0 _ (by omega) (by omega), ← findPaths_fuel g fromEntity toEntity maxDepth extra,
      findPaths_eq]
  exact ⟨key 0, key⟩

/-- C29, the bound is reached: with the single relation `A -> B` and `maxDepth = 0`,
the call for `A` makes one nested call (at depth 1, which returns at once), so room
for the initial call alone is exceeded; and a graph with a self-loop and a cycle is
searched to the end. -/
theorem findPaths_bound_reached :
    findPathsBounded ⟨[], [⟨"A", "B", "knows", none, none⟩]⟩ 0 "C" 1 "A" ["A"] [] 0
        { paths := [], visited := [] } = none ∧
    findPathsBounded ⟨[], [⟨"A", "B", "knows", none, none⟩]⟩ 0 "C" 2 "A" ["A"] [] 0
        { paths := [], visited := [] } = some { paths := [], visited := [] } ∧
    findPathsBounded
        ⟨[], [⟨"A", "A", "knows", none, none⟩, ⟨"A", "B", "knows", none, none⟩,
              ⟨"B", "A", "knows", none, none⟩]⟩ 5 "C" 7 "A" ["A"] [] 0
        { paths := [], visited := [] } = some { paths := [], visited := [] } := by
  decide

end McpKnowledgeGraph
